import Mathlib

/-!
# A single-cycle RISC-V interpreter (`riscv_cpu.c`)

Shallow embedding of the datapath of `riscv_cpu.c`.  The file-scope globals of
the C program become the fields of `State`; every C function becomes a Lean
function that takes the state and returns the new state together with the
value the C function returns.

Machine integers:
* `uint32_t` values are `Nat`, reduced `% 2^32` wherever the C computation can
  wrap;
* `int` / `int32_t` values are `Int`; the result of every signed operation is
  brought back into the 32-bit two's-complement range by `toS32`, and a
  conversion to `uint32_t` is `toU32`.
-/

namespace RiscV

/-- Conversion of a C integer to `uint32_t` (reduction modulo `2^32`). -/
def toU32 (x : Int) : Nat := (x % 4294967296).toNat

/-- Conversion of an integer to `int32_t` (32-bit two's complement). -/
def toS32 (x : Int) : Int := (x + 2147483648) % 4294967296 - 2147483648

/-- The values an `int` variable can hold. -/
def IsInt32 (x : Int) : Prop := -2147483648 ≤ x ∧ x < 2147483648

/-- The globals of `riscv_cpu.c`. -/
structure State where
  pc : Nat
  next_pc : Nat
  branch_target : Nat
  jump_target : Nat
  alu_zero : Int
  total_clock_cycles : Int
  RegWrite : Int
  MemtoReg : Int
  MemRead : Int
  MemWrite : Int
  ALUSrc : Int
  Branch : Int
  ALUOp0 : Int
  ALUOp1 : Int
  Jump : Int
  rf : Nat → Int
  d_mem : Nat → Int
  instr_mem : Nat → Nat
  instr_count : Int

/-- Assignment `a[i] = v` to an array held as a function of its index. -/
def setAt (a : Nat → Int) (i : Nat) (v : Int) : Nat → Int :=
  fun j => if j = i then v else a j

/-- `extract_bits`: `(instruction >> start) & ((1UL << length) - 1)`. The
arguments `start` and `length` are the non-negative constants of the call
sites, and the mask is computed in the 64-bit `unsigned long`. -/
def extract_bits (instruction : Nat) (start length : Nat) : Nat :=
  (instruction >>> start) &&& ((1 <<< length) - 1)

/-- `sign_extend`: when bit `bit_width - 1` of `value` is set, the bits from
`bit_width` upwards are filled with ones (`value | (~0U << bit_width)`); the
result is converted to `int32_t`. -/
def sign_extend (value : Nat) (bit_width : Nat) : Int :=
  if (value >>> (bit_width - 1)) &&& 1 ≠ 0 then
    toS32 ((value ||| ((4294967295 <<< bit_width) % 4294967296) : Nat) : Int)
  else
    toS32 (value : Int)

/-- `ALUControl`: the 4-bit ALU operation; `ALUSrc` is the global the C
function reads. -/
def ALUControl (ALUSrc : Int) (ALUOp0 ALUOp1 : Int) (funct3 funct7 : Nat) : Nat :=
  if ALUOp0 = 0 ∧ ALUOp1 = 0 then 0b0010
  else if ALUOp0 = 1 ∧ ALUOp1 = 0 then 0b0110
  else if ALUOp0 = 0 ∧ ALUOp1 = 1 then
    if funct3 = 0 then
      if funct7 = 0x20 ∧ ALUSrc = 0 then 0b0110 else 0b0010
    else if funct3 = 7 then 0b0000
    else if funct3 = 6 then 0b0001
    else 0b0010
  else 0b0010

/-- `ControlUnit`: all nine signals are reset, then set by opcode. -/
def ControlUnit (s : State) (opcode : Nat) : State :=
  let s0 : State := { s with RegWrite := 0, MemtoReg := 0, MemRead := 0, MemWrite := 0,
                             ALUSrc := 0, Branch := 0, ALUOp0 := 0, ALUOp1 := 0, Jump := 0 }
  if opcode = 0x33 then { s0 with RegWrite := 1, ALUOp1 := 1 }
  else if opcode = 0x13 then { s0 with RegWrite := 1, ALUSrc := 1, ALUOp1 := 1 }
  else if opcode = 0x03 then
    { s0 with RegWrite := 1, ALUSrc := 1, MemRead := 1, MemtoReg := 1, ALUOp0 := 0, ALUOp1 := 0 }
  else if opcode = 0x23 then { s0 with ALUSrc := 1, MemWrite := 1, ALUOp0 := 0, ALUOp1 := 0 }
  else if opcode = 0x63 then { s0 with Branch := 1, ALUOp0 := 1 }
  else if opcode = 0x6F then { s0 with RegWrite := 1, Jump := 1 }
  else if opcode = 0x67 then
    { s0 with RegWrite := 1, Jump := 1, ALUSrc := 1, ALUOp0 := 0, ALUOp1 := 0 }
  else s0

/-- `Fetch`: the instruction word at `pc`, and `next_pc = pc + 4`; beyond the
program boundary it returns 0 and leaves `next_pc` alone. -/
def Fetch (s : State) : State × Nat :=
  if s.pc / 4 ≥ toU32 s.instr_count then (s, 0)
  else ({ s with next_pc := (s.pc + 4) % 4294967296 }, s.instr_mem (s.pc / 4))

/-- The values `Decode` stores through its pointer arguments. -/
structure Decoded where
  rs1_val : Int
  rs2_val : Int
  rd : Nat
  rs1 : Nat
  rs2 : Nat
  funct3 : Nat
  funct7 : Nat
  imm : Int

/-- The immediate generation of `Decode`, by opcode. -/
def decodeImm (instruction : Nat) (opcode : Nat) : Int :=
  if opcode = 0x13 ∨ opcode = 0x03 ∨ opcode = 0x67 then
    let imm_i := extract_bits instruction 20 12
    sign_extend imm_i 12
  else if opcode = 0x23 then
    let imm_4_0 := extract_bits instruction 7 5
    let imm_11_5 := extract_bits instruction 25 7
    let imm_s := ((imm_11_5 <<< 5) % 4294967296) ||| imm_4_0
    sign_extend imm_s 12
  else if opcode = 0x63 then
    let imm_11 := extract_bits instruction 7 1
    let imm_4_1 := extract_bits instruction 8 4
    let imm_10_5 := extract_bits instruction 25 6
    let imm_12 := extract_bits instruction 31 1
    let imm_b := ((imm_12 <<< 12) % 4294967296) ||| ((imm_11 <<< 11) % 4294967296) |||
                 ((imm_10_5 <<< 5) % 4294967296) ||| ((imm_4_1 <<< 1) % 4294967296)
    sign_extend imm_b 13
  else if opcode = 0x6F then
    let imm_19_12 := extract_bits instruction 12 8
    let imm_11 := extract_bits instruction 20 1
    let imm_10_1 := extract_bits instruction 21 10
    let imm_20 := extract_bits instruction 31 1
    let imm_j := ((imm_20 <<< 20) % 4294967296) ||| ((imm_19_12 <<< 12) % 4294967296) |||
                 ((imm_11 <<< 11) % 4294967296) ||| ((imm_10_1 <<< 1) % 4294967296)
    sign_extend imm_j 21
  else 0

/-- `Decode`: field extraction, `ControlUnit`, register read (x0 reads as 0)
and immediate generation. -/
def Decode (s : State) (instruction : Nat) : State × Decoded :=
  let opcode := instruction &&& 0x7F
  let rd := (instruction >>> 7) &&& 0x1F
  let funct3 := (instruction >>> 12) &&& 0x7
  let rs1 := (instruction >>> 15) &&& 0x1F
  let rs2 := (instruction >>> 20) &&& 0x1F
  let funct7 := (instruction >>> 25) &&& 0x7F
  let s1 := ControlUnit s opcode
  let rs1_val := if rs1 = 0 then 0 else s1.rf rs1
  let rs2_val := if rs2 = 0 then 0 else s1.rf rs2
  (s1, { rs1_val := rs1_val, rs2_val := rs2_val, rd := rd, rs1 := rs1, rs2 := rs2,
         funct3 := funct3, funct7 := funct7, imm := decodeImm instruction opcode })

/-- The `switch (alu_ctrl)` of `Execute`; `&` and `|` on `int` act on the
32-bit two's-complement representations. -/
def aluOp (alu_ctrl : Nat) (rs1_val operand2 : Int) : Int :=
  if alu_ctrl = 0b0000 then toS32 ((toU32 rs1_val &&& toU32 operand2 : Nat) : Int)
  else if alu_ctrl = 0b0001 then toS32 ((toU32 rs1_val ||| toU32 operand2 : Nat) : Int)
  else if alu_ctrl = 0b0010 then toS32 (rs1_val + operand2)
  else if alu_ctrl = 0b0110 then toS32 (rs1_val - operand2)
  else 0

/-- `Execute`: the ALU result, the zero flag, and the branch and jump
targets. For a jump the opcode is read again from `instr_mem[pc / 4]`. -/
def Execute (s : State) (rs1_val rs2_val imm : Int) (funct3 funct7 : Nat) : State × Int :=
  let operand2 := if s.ALUSrc ≠ 0 then imm else rs2_val
  let alu_ctrl := ALUControl s.ALUSrc s.ALUOp0 s.ALUOp1 funct3 funct7
  let alu_result := aluOp alu_ctrl rs1_val operand2
  let s1 : State :=
    if s.Branch ≠ 0 then
      { s with alu_zero := if toS32 (rs1_val - rs2_val) = 0 then 1 else 0 }
    else { s with alu_zero := 0 }
  let s2 : State :=
    if s1.Branch ≠ 0 then { s1 with branch_target := toU32 ((s1.pc : Int) + imm) } else s1
  let s3 : State :=
    if s2.Jump ≠ 0 then
      let current_instr_index := s2.pc / 4
      if current_instr_index ≥ toU32 s2.instr_count then
        { s2 with jump_target := (s2.pc + 4) % 4294967296 }
      else
        let instruction := s2.instr_mem current_instr_index
        let opcode := instruction &&& 0x7F
        if opcode = 0x6F then { s2 with jump_target := toU32 ((s2.pc : Int) + imm) }
        else if opcode = 0x67 then
          { s2 with jump_target := toU32 (toS32 (rs1_val + imm)) &&& 4294967294 }
        else s2
    else s2
  (s3, alu_result)

/-- `Mem`: at most one aligned, in-range load or store; `%` and `/` are the C
truncating operators. -/
def Mem (s : State) (alu_result rs2_val : Int) : State × Int :=
  if s.MemRead ≠ 0 ∨ s.MemWrite ≠ 0 then
    if Int.tmod alu_result 4 ≠ 0 then (s, 0)
    else
      let mem_index := Int.tdiv alu_result 4
      if mem_index < 0 ∨ mem_index ≥ 32 then (s, 0)
      else
        let mem_data := if s.MemRead ≠ 0 then s.d_mem mem_index.toNat else 0
        let s1 : State :=
          if s.MemWrite ≠ 0 then { s with d_mem := setAt s.d_mem mem_index.toNat rs2_val }
          else s
        (s1, mem_data)
  else (s, 0)

/-- `Writeback`: register write, next `pc`, and the cycle counter. -/
def Writeback (s : State) (rd : Nat) (alu_result mem_data : Int) : State :=
  let write_data :=
    if s.Jump ≠ 0 then toS32 (s.next_pc : Int)
    else if s.MemtoReg ≠ 0 then mem_data
    else alu_result
  let s1 : State :=
    if s.RegWrite ≠ 0 ∧ rd ≠ 0 then { s with rf := setAt s.rf rd write_data } else s
  let s2 : State :=
    if s1.Jump ≠ 0 then { s1 with pc := s1.jump_target }
    else if s1.Branch ≠ 0 ∧ s1.alu_zero ≠ 0 then { s1 with pc := s1.branch_target }
    else { s1 with pc := s1.next_pc }
  { s2 with total_clock_cycles := toS32 (s2.total_clock_cycles + 1) }

/-- The stages of one pass through the loop body of `main` after the word
`instruction` has been fetched: Decode, Execute, Mem, Writeback. -/
def stages (s : State) (instruction : Nat) : State :=
  let d := Decode s instruction
  let e := Execute d.1 d.2.rs1_val d.2.rs2_val d.2.imm d.2.funct3 d.2.funct7
  let m := Mem e.1 e.2 d.2.rs2_val
  Writeback m.1 d.2.rd e.2 m.2

/-- One pass through the loop body of `main`: Fetch, the end-of-program
`break`, then the four remaining stages. -/
def cycle (s : State) : State :=
  let f := Fetch s
  if f.2 = 0 ∧ f.1.pc / 4 ≥ toU32 f.1.instr_count then f.1
  else stages f.1 f.2

/-- The loop guard of `main`: `(pc / 4) < (uint32_t)instr_count`. -/
def fetchable (s : State) : Prop := s.pc / 4 < toU32 s.instr_count

instance (s : State) : Decidable (fetchable s) := by unfold fetchable; infer_instance

/-- The instruction word `Fetch` reads. -/
def currentInstr (s : State) : Nat := s.instr_mem (s.pc / 4)

/-- The opcode field `instruction & 0x7F`. -/
def opcodeOf (instruction : Nat) : Nat := instruction &&& 0x7F

/-- The register operands and immediate `Decode` produces for the current
instruction. -/
def decoded (s : State) : Decoded := (Decode s (currentInstr s)).2

/-- The safeguard test at the end of the loop body:
`total_clock_cycles > instr_count * 5 && instr_count > 0`. -/
def safeguard (s : State) : Bool :=
  decide (s.total_clock_cycles > toS32 (s.instr_count * 5) ∧ s.instr_count > 0)

/-- The `while` loop of `main`, run for at most `fuel` iterations: `some s`
when the loop has exited in state `s` (loop guard false, end-of-program
`break`, or safeguard `break`), `none` when the fuel ran out first. -/
def mainLoop : Nat → State → Option State
  | 0, _ => none
  | fuel + 1, s =>
    if s.pc / 4 < toU32 s.instr_count then
      let f := Fetch s
      if f.2 = 0 ∧ f.1.pc / 4 ≥ toU32 f.1.instr_count then some f.1
      else
        let s1 := stages f.1 f.2
        if safeguard s1 then some s1 else mainLoop fuel s1
    else some s

/-! ## Vocabulary of the statements -/

/-- The seven opcodes `ControlUnit` has a case for. -/
def supportedOpcode (opcode : Nat) : Prop :=
  opcode = 0x33 ∨ opcode = 0x13 ∨ opcode = 0x03 ∨ opcode = 0x23 ∨ opcode = 0x63 ∨
  opcode = 0x6F ∨ opcode = 0x67

instance (opcode : Nat) : Decidable (supportedOpcode opcode) := by
  unfold supportedOpcode; infer_instance

instance (x : Int) : Decidable (IsInt32 x) := by unfold IsInt32; infer_instance

/-- The byte address of a load or store: the `int` the ALU computes for
`rs1_val + imm`, which `main` hands to `Mem` as `alu_result`. -/
def memAddress (s : State) : Int := toS32 ((decoded s).rs1_val + (decoded s).imm)

/-- The two error tests of `Mem`: the address is not a multiple of 4
(`alu_result % 4 != 0`), or the word index `alu_result / 4` is outside
`[0, 32)`. -/
def memFault (a : Int) : Prop := Int.tmod a 4 ≠ 0 ∨ Int.tdiv a 4 < 0 ∨ Int.tdiv a 4 ≥ 32

instance (a : Int) : Decidable (memFault a) := by unfold memFault; infer_instance

/-- The control signals of a state, in the order
(RegWrite, MemRead, MemWrite, MemtoReg, ALUSrc, Branch, Jump, ALUOp1, ALUOp0). -/
def signals (s : State) : Int × Int × Int × Int × Int × Int × Int × Int × Int :=
  (s.RegWrite, s.MemRead, s.MemWrite, s.MemtoReg, s.ALUSrc, s.Branch, s.Jump, s.ALUOp1, s.ALUOp0)

/-- The specified control table, one row per opcode, in the order of `signals`. -/
def specControlTable (opcode : Nat) : Int × Int × Int × Int × Int × Int × Int × Int × Int :=
  if opcode = 0x33 then (1, 0, 0, 0, 0, 0, 0, 1, 0)
  else if opcode = 0x13 then (1, 0, 0, 0, 1, 0, 0, 1, 0)
  else if opcode = 0x03 then (1, 1, 0, 1, 1, 0, 0, 0, 0)
  else if opcode = 0x23 then (0, 0, 1, 0, 1, 0, 0, 0, 0)
  else if opcode = 0x63 then (0, 0, 0, 0, 0, 1, 0, 0, 1)
  else if opcode = 0x6F then (1, 0, 0, 0, 0, 0, 1, 0, 0)
  else if opcode = 0x67 then (1, 0, 0, 0, 1, 0, 1, 0, 0)
  else (0, 0, 0, 0, 0, 0, 0, 0, 0)

/-- The machine as `main` has it when the loop starts: every scalar global is
0, `instr_mem` holds the program `read_program` loaded and `instr_count` is
its length. -/
def mkState (prog : List Nat) (rf d_mem : Nat → Int) : State :=
  { pc := 0, next_pc := 0, branch_target := 0, jump_target := 0, alu_zero := 0,
    total_clock_cycles := 0, RegWrite := 0, MemtoReg := 0, MemRead := 0, MemWrite := 0,
    ALUSrc := 0, Branch := 0, ALUOp0 := 0, ALUOp1 := 0, Jump := 0,
    rf := rf, d_mem := d_mem, instr_mem := fun i => prog.getD i 0,
    instr_count := (prog.length : Int) }

/-- The register seeds of `main` for the part 1 sample:
x1 = 0x20, x2 = 0x5, x10 = 0x70, x11 = 0x4. -/
def rfPart1 : Nat → Int :=
  fun i => if i = 1 then 0x20 else if i = 2 then 0x5 else if i = 10 then 0x70
           else if i = 11 then 0x4 else 0

/-- The data memory seeds of `main` for the part 1 sample:
word 28 (address 0x70) = 0x5, word 29 (address 0x74) = 0x10. -/
def dmemPart1 : Nat → Int := fun i => if i = 28 then 0x5 else if i = 29 then 0x10 else 0

/-- The register seeds of `main` for the part 2 sample:
x8 = 0x20, x10 = 0x5, x11 = 0x2, x12 = 0xa, x13 = 0xf. -/
def rfPart2 : Nat → Int :=
  fun i => if i = 8 then 0x20 else if i = 10 then 0x5 else if i = 11 then 0x2
           else if i = 12 then 0xa else if i = 13 then 0xf else 0

/-- The data memory of the part 2 sample: all zero. -/
def dmemPart2 : Nat → Int := fun _ => 0

/-- The value of the low `n` bits of `v` read as an `n`-bit two's-complement
number: `v` itself below `2^(n-1)`, and `v - 2^n` from there on. -/
def specTwosComplement (n v : Nat) : Int :=
  if v < 2 ^ (n - 1) then (v : Int) else (v : Int) - 2 ^ n

/-- The state after `n` passes through the loop body. -/
def cycles : Nat → State → State
  | 0, s => s
  | n + 1, s => cycle (cycles n s)

/-- A state with the same pc, registers, memories and counters as `s`, and
every control signal and scratch global (`alu_zero`, `next_pc`,
`branch_target`, `jump_target`) overwritten. -/
def scrambleGlobals (s : State) : State :=
  { s with RegWrite := 1, MemtoReg := 1, MemRead := 1, MemWrite := 1, ALUSrc := 1,
           Branch := 1, ALUOp0 := 1, ALUOp1 := 1, Jump := 1, alu_zero := 1,
           next_pc := 0x100, branch_target := 0x40, jump_target := 0x80 }

/-! ## Arithmetic of the 32-bit conversions -/

theorem toS32_of_IsInt32 (x : Int) (h : IsInt32 x) : toS32 x = x := by
  unfold IsInt32 at h
  unfold toS32
  omega

theorem toU32_toS32 (x : Int) : toU32 (toS32 x) = toU32 x := by
  unfold toU32 toS32
  congr 1
  omega

theorem toU32_lt (x : Int) : toU32 x < 4294967296 := by
  unfold toU32
  omega

/-- On `int` operands a wrapped difference is zero exactly when they are equal. -/
theorem toS32_sub_eq_zero (a b : Int) (ha : IsInt32 a) (hb : IsInt32 b) :
    toS32 (a - b) = 0 ↔ a = b := by
  unfold IsInt32 at ha hb
  unfold toS32
  omega

/-- The mask `~1U` clears bit 0 of a 32-bit value. -/
theorem land_clear_bit0 (n : Nat) (h : n < 4294967296) : n &&& 4294967294 = n / 2 * 2 := by
  apply Nat.eq_of_testBit_eq
  intro i
  rw [Nat.testBit_and]
  cases i with
  | zero =>
    have h1 : Nat.testBit 4294967294 0 = false := by decide
    have h2 : Nat.testBit (n / 2 * 2) 0 = false := by
      rw [Nat.testBit_zero]; simp
    rw [h1, h2, Bool.and_false]
  | succ j =>
    have h2 : Nat.testBit (n / 2 * 2) (j + 1) = Nat.testBit n (j + 1) := by
      rw [Nat.testBit_succ, Nat.testBit_succ, Nat.mul_div_cancel _ (by decide : 0 < 2)]
    rw [h2]
    by_cases hj : j < 31
    · have h1 : Nat.testBit 4294967294 (j + 1) = true := by
        rw [Nat.testBit_succ]
        have h3 : (4294967294 : Nat) / 2 = 2 ^ 31 - 1 := by norm_num
        rw [h3, Nat.testBit_two_pow_sub_one]
        simp [hj]
      rw [h1, Bool.and_true]
    · have h1 : Nat.testBit n (j + 1) = false := by
        apply Nat.testBit_eq_false_of_lt
        calc n < 2 ^ 32 := h
          _ ≤ 2 ^ (j + 1) := Nat.pow_le_pow_right (by decide) (by omega)
      rw [h1, Bool.false_and]

theorem setAt_same (a : Nat → Int) (i : Nat) (v : Int) : setAt a i v i = v := by
  simp [setAt]

theorem setAt_ne (a : Nat → Int) (i : Nat) (v : Int) (j : Nat) (h : j ≠ i) :
    setAt a i v j = a j := by
  simp [setAt, h]

theorem ite_setAt_zero (c : Prop) [Decidable c] (a : Nat → Int) (rd : Nat) (v : Int) :
    (if c ∧ rd ≠ 0 then setAt a rd v else a) 0 = a 0 := by
  split_ifs with h
  · exact setAt_ne a rd v 0 (Ne.symm h.2)
  · rfl

theorem rfPart1_int32 (i : Nat) : IsInt32 (rfPart1 i) := by
  unfold rfPart1 IsInt32
  split_ifs <;> omega

/-! ## Each stage as one record update -/

theorem ControlUnit_rf (s : State) (opcode : Nat) : (ControlUnit s opcode).rf = s.rf := by
  unfold ControlUnit
  simp only []
  split_ifs <;> rfl

theorem ControlUnit_load (s : State) (opcode : Nat) (h : opcode = 0x03) :
    ControlUnit s opcode =
      { s with RegWrite := 1, MemtoReg := 1, MemRead := 1, MemWrite := 0,
               ALUSrc := 1, Branch := 0, ALUOp0 := 0, ALUOp1 := 0, Jump := 0 } := by
  subst h; rfl

theorem ControlUnit_store (s : State) (opcode : Nat) (h : opcode = 0x23) :
    ControlUnit s opcode =
      { s with RegWrite := 0, MemtoReg := 0, MemRead := 0, MemWrite := 1,
               ALUSrc := 1, Branch := 0, ALUOp0 := 0, ALUOp1 := 0, Jump := 0 } := by
  subst h; rfl

theorem ControlUnit_branch (s : State) (opcode : Nat) (h : opcode = 0x63) :
    ControlUnit s opcode =
      { s with RegWrite := 0, MemtoReg := 0, MemRead := 0, MemWrite := 0,
               ALUSrc := 0, Branch := 1, ALUOp0 := 1, ALUOp1 := 0, Jump := 0 } := by
  subst h; rfl

theorem ControlUnit_jal (s : State) (opcode : Nat) (h : opcode = 0x6F) :
    ControlUnit s opcode =
      { s with RegWrite := 1, MemtoReg := 0, MemRead := 0, MemWrite := 0,
               ALUSrc := 0, Branch := 0, ALUOp0 := 0, ALUOp1 := 0, Jump := 1 } := by
  subst h; rfl

theorem ControlUnit_jalr (s : State) (opcode : Nat) (h : opcode = 0x67) :
    ControlUnit s opcode =
      { s with RegWrite := 1, MemtoReg := 0, MemRead := 0, MemWrite := 0,
               ALUSrc := 1, Branch := 0, ALUOp0 := 0, ALUOp1 := 0, Jump := 1 } := by
  subst h; rfl

theorem ControlUnit_unsupported (s : State) (opcode : Nat) (h : ¬ supportedOpcode opcode) :
    ControlUnit s opcode =
      { s with RegWrite := 0, MemtoReg := 0, MemRead := 0, MemWrite := 0,
               ALUSrc := 0, Branch := 0, ALUOp0 := 0, ALUOp1 := 0, Jump := 0 } := by
  unfold supportedOpcode at h
  simp only [not_or] at h
  obtain ⟨h1, h2, h3, h4, h5, h6, h7⟩ := h
  simp [ControlUnit, h1, h2, h3, h4, h5, h6, h7]

theorem Decode_fst (s : State) (w : Nat) : (Decode s w).1 = ControlUnit s (w &&& 0x7F) := rfl

theorem Decode_snd (s : State) (w : Nat) :
    (Decode s w).2 =
      { rs1_val := if (w >>> 15) &&& 0x1F = 0 then 0 else s.rf ((w >>> 15) &&& 0x1F),
        rs2_val := if (w >>> 20) &&& 0x1F = 0 then 0 else s.rf ((w >>> 20) &&& 0x1F),
        rd := (w >>> 7) &&& 0x1F, rs1 := (w >>> 15) &&& 0x1F, rs2 := (w >>> 20) &&& 0x1F,
        funct3 := (w >>> 12) &&& 0x7, funct7 := (w >>> 25) &&& 0x7F,
        imm := decodeImm w (w &&& 0x7F) } := by
  simp only [Decode, ControlUnit_rf]

theorem Execute_eq (s : State) (rs1_val rs2_val imm : Int) (funct3 funct7 : Nat) :
    Execute s rs1_val rs2_val imm funct3 funct7 =
      ({ s with
          alu_zero := if s.Branch ≠ 0 then (if toS32 (rs1_val - rs2_val) = 0 then 1 else 0) else 0,
          branch_target := if s.Branch ≠ 0 then toU32 ((s.pc : Int) + imm) else s.branch_target,
          jump_target :=
            if s.Jump ≠ 0 then
              if s.pc / 4 ≥ toU32 s.instr_count then (s.pc + 4) % 4294967296
              else if s.instr_mem (s.pc / 4) &&& 0x7F = 0x6F then toU32 ((s.pc : Int) + imm)
              else if s.instr_mem (s.pc / 4) &&& 0x7F = 0x67 then
                toU32 (toS32 (rs1_val + imm)) &&& 4294967294
              else s.jump_target
            else s.jump_target },
       aluOp (ALUControl s.ALUSrc s.ALUOp0 s.ALUOp1 funct3 funct7) rs1_val
         (if s.ALUSrc ≠ 0 then imm else rs2_val)) := by
  unfold Execute
  cases s
  simp only []
  split_ifs <;> simp_all

theorem Mem_eq (s : State) (a v : Int) :
    Mem s a v =
      ({ s with d_mem := if s.MemWrite ≠ 0 ∧ ¬ memFault a
                         then setAt s.d_mem (Int.tdiv a 4).toNat v else s.d_mem },
       if s.MemRead ≠ 0 ∧ ¬ memFault a then s.d_mem (Int.tdiv a 4).toNat else 0) := by
  unfold Mem memFault
  cases s
  simp only []
  split_ifs <;> simp_all

theorem Writeback_eq (s : State) (rd : Nat) (alu_result mem_data : Int) :
    Writeback s rd alu_result mem_data =
      { s with
          rf := if s.RegWrite ≠ 0 ∧ rd ≠ 0 then
                  setAt s.rf rd (if s.Jump ≠ 0 then toS32 (s.next_pc : Int)
                                 else if s.MemtoReg ≠ 0 then mem_data else alu_result)
                else s.rf,
          pc := if s.Jump ≠ 0 then s.jump_target
                else if s.Branch ≠ 0 ∧ s.alu_zero ≠ 0 then s.branch_target
                else s.next_pc,
          total_clock_cycles := toS32 (s.total_clock_cycles + 1) } := by
  unfold Writeback
  cases s
  simp only []
  split_ifs <;> simp_all

/-! ## One cycle, by instruction class -/

theorem cycle_of_fetchable (s : State) (hf : fetchable s) :
    cycle s = stages { s with next_pc := (s.pc + 4) % 4294967296 } (currentInstr s) := by
  unfold fetchable at hf
  have h : ¬ (s.pc / 4 ≥ toU32 s.instr_count) := by omega
  simp [cycle, Fetch, h, currentInstr]

theorem cycle_of_not_fetchable (s : State) (hf : ¬ fetchable s) : cycle s = s := by
  unfold fetchable at hf
  have h : s.pc / 4 ≥ toU32 s.instr_count := by omega
  simp [cycle, Fetch, h]

/-- A load (`lw`): the register written, the untouched memory, the next pc. -/
theorem cycle_load (s : State) (hf : fetchable s) (hop : opcodeOf (currentInstr s) = 0x03) :
    (cycle s).d_mem = s.d_mem ∧
    (cycle s).rf =
      (if (decoded s).rd ≠ 0 then
        setAt s.rf (decoded s).rd
          (if memFault (memAddress s) then 0
           else s.d_mem (Int.tdiv (memAddress s) 4).toNat)
      else s.rf) ∧
    (cycle s).pc = (s.pc + 4) % 4294967296 ∧
    (cycle s).total_clock_cycles = toS32 (s.total_clock_cycles + 1) := by
  rw [cycle_of_fetchable s hf]
  unfold opcodeOf at hop
  simp only [stages, Writeback_eq, Mem_eq, Execute_eq, Decode_fst, Decode_snd,
    ControlUnit_load _ _ hop, memAddress, decoded]
  simp [ALUControl, aluOp]

/-- A store (`sw`): the word written, the untouched registers, the next pc. -/
theorem cycle_store (s : State) (hf : fetchable s) (hop : opcodeOf (currentInstr s) = 0x23) :
    (cycle s).d_mem =
      (if memFault (memAddress s) then s.d_mem
       else setAt s.d_mem (Int.tdiv (memAddress s) 4).toNat (decoded s).rs2_val) ∧
    (cycle s).rf = s.rf ∧
    (cycle s).pc = (s.pc + 4) % 4294967296 ∧
    (cycle s).total_clock_cycles = toS32 (s.total_clock_cycles + 1) := by
  rw [cycle_of_fetchable s hf]
  unfold opcodeOf at hop
  simp only [stages, Writeback_eq, Mem_eq, Execute_eq, Decode_fst, Decode_snd,
    ControlUnit_store _ _ hop, memAddress, decoded]
  simp [ALUControl, aluOp]

/-- A branch: the zero flag and the pc it selects. -/
theorem cycle_branch (s : State) (hf : fetchable s) (hop : opcodeOf (currentInstr s) = 0x63) :
    (cycle s).d_mem = s.d_mem ∧
    (cycle s).rf = s.rf ∧
    (cycle s).alu_zero =
      (if toS32 ((decoded s).rs1_val - (decoded s).rs2_val) = 0 then 1 else 0) ∧
    (cycle s).pc =
      (if toS32 ((decoded s).rs1_val - (decoded s).rs2_val) = 0
        then toU32 ((s.pc : Int) + (decoded s).imm) else (s.pc + 4) % 4294967296) ∧
    (cycle s).total_clock_cycles = toS32 (s.total_clock_cycles + 1) := by
  rw [cycle_of_fetchable s hf]
  unfold opcodeOf at hop
  simp only [stages, Writeback_eq, Mem_eq, Execute_eq, Decode_fst, Decode_snd,
    ControlUnit_branch _ _ hop, decoded]
  simp [ALUControl, aluOp]

/-- JAL: the link register and the target `pc + imm`. -/
theorem cycle_jal (s : State) (hf : fetchable s) (hop : opcodeOf (currentInstr s) = 0x6F) :
    (cycle s).d_mem = s.d_mem ∧
    (cycle s).rf =
      (if (decoded s).rd ≠ 0
        then setAt s.rf (decoded s).rd (toS32 (((s.pc + 4) % 4294967296 : Nat) : Int))
        else s.rf) ∧
    (cycle s).pc = toU32 ((s.pc : Int) + (decoded s).imm) ∧
    (cycle s).total_clock_cycles = toS32 (s.total_clock_cycles + 1) := by
  rw [cycle_of_fetchable s hf]
  have hf' : ¬ (toU32 s.instr_count ≤ s.pc / 4) := by unfold fetchable at hf; omega
  unfold opcodeOf at hop
  have hop' : s.instr_mem (s.pc / 4) &&& 0x7F = 0x6F := hop
  simp only [stages, Writeback_eq, Mem_eq, Execute_eq, Decode_fst, Decode_snd,
    ControlUnit_jal _ _ hop, decoded]
  simp [ALUControl, aluOp, hf', hop']

/-- JALR: the link register and the target `(rs1_val + imm) & ~1U`. -/
theorem cycle_jalr (s : State) (hf : fetchable s) (hop : opcodeOf (currentInstr s) = 0x67) :
    (cycle s).d_mem = s.d_mem ∧
    (cycle s).rf =
      (if (decoded s).rd ≠ 0
        then setAt s.rf (decoded s).rd (toS32 (((s.pc + 4) % 4294967296 : Nat) : Int))
        else s.rf) ∧
    (cycle s).pc = toU32 (toS32 ((decoded s).rs1_val + (decoded s).imm)) &&& 4294967294 ∧
    (cycle s).total_clock_cycles = toS32 (s.total_clock_cycles + 1) := by
  rw [cycle_of_fetchable s hf]
  have hf' : ¬ (toU32 s.instr_count ≤ s.pc / 4) := by unfold fetchable at hf; omega
  unfold opcodeOf at hop
  have hop' : s.instr_mem (s.pc / 4) &&& 0x7F = 0x67 := hop
  simp only [stages, Writeback_eq, Mem_eq, Execute_eq, Decode_fst, Decode_snd,
    ControlUnit_jalr _ _ hop, decoded]
  simp [ALUControl, aluOp, hf', hop']

/-- An opcode outside the seven: the stages run with every signal 0. -/
theorem cycle_unsupported (s : State) (hf : fetchable s)
    (hop : ¬ supportedOpcode (opcodeOf (currentInstr s))) :
    (cycle s).d_mem = s.d_mem ∧
    (cycle s).rf = s.rf ∧
    (cycle s).pc = (s.pc + 4) % 4294967296 ∧
    (cycle s).total_clock_cycles = toS32 (s.total_clock_cycles + 1) := by
  rw [cycle_of_fetchable s hf]
  unfold opcodeOf at hop
  simp only [stages, Writeback_eq, Mem_eq, Execute_eq, Decode_fst, Decode_snd,
    ControlUnit_unsupported _ _ hop]
  simp

/-- No cycle writes `rf[0]`. -/
theorem cycle_rf_zero (s : State) : (cycle s).rf 0 = s.rf 0 := by
  by_cases hf : fetchable s
  · rw [cycle_of_fetchable s hf]
    simp only [stages, Writeback_eq, Mem_eq, Execute_eq, Decode_fst, ControlUnit_rf]
    exact ite_setAt_zero _ _ _ _
  · rw [cycle_of_not_fetchable s hf]

/-! ## Field extraction, sign extension and the immediates -/

theorem extract_bits_eq (w start length : Nat) :
    extract_bits w start length = w / 2 ^ start % 2 ^ length := by
  unfold extract_bits
  rw [Nat.shiftRight_eq_div_pow, Nat.one_shiftLeft, Nat.and_pow_two_sub_one_eq_mod]

/-- `x | y` is `x + y` when `x` is a multiple of `2^k` and `y < 2^k`. -/
theorem lor_eq_add (k a b : Nat) (hb : b < 2 ^ k) : (2 ^ k * a) ||| b = 2 ^ k * a + b :=
  (Nat.mul_add_lt_is_or hb a).symm

theorem sign_extend_12 (v : Nat) (hv : v < 4096) :
    sign_extend v 12 = if v < 2048 then (v : Int) else (v : Int) - 4096 := by
  unfold sign_extend
  have h1 : (v >>> (12 - 1)) &&& 1 = v / 2048 % 2 := by
    rw [Nat.shiftRight_eq_div_pow, Nat.and_one_is_mod]
  have h2 : (4294967295 <<< 12) % 4294967296 = 2 ^ 12 * 1048575 := by decide
  rw [h1, h2, Nat.or_comm, lor_eq_add 12 _ _ hv]
  split_ifs with ha hb hb <;> unfold toS32 <;> omega

theorem sign_extend_13 (v : Nat) (hv : v < 8192) :
    sign_extend v 13 = if v < 4096 then (v : Int) else (v : Int) - 8192 := by
  unfold sign_extend
  have h1 : (v >>> (13 - 1)) &&& 1 = v / 4096 % 2 := by
    rw [Nat.shiftRight_eq_div_pow, Nat.and_one_is_mod]
  have h2 : (4294967295 <<< 13) % 4294967296 = 2 ^ 13 * 524287 := by decide
  rw [h1, h2, Nat.or_comm, lor_eq_add 13 _ _ hv]
  split_ifs with ha hb hb <;> unfold toS32 <;> omega

theorem sign_extend_21 (v : Nat) (hv : v < 2097152) :
    sign_extend v 21 = if v < 1048576 then (v : Int) else (v : Int) - 2097152 := by
  unfold sign_extend
  have h1 : (v >>> (21 - 1)) &&& 1 = v / 1048576 % 2 := by
    rw [Nat.shiftRight_eq_div_pow, Nat.and_one_is_mod]
  have h2 : (4294967295 <<< 21) % 4294967296 = 2 ^ 21 * 2047 := by decide
  rw [h1, h2, Nat.or_comm, lor_eq_add 21 _ _ hv]
  split_ifs with ha hb hb <;> unfold toS32 <;> omega

theorem lor_add_of (k m x y : Nat) (hx : x = 2 ^ k * m) (hy : y < 2 ^ k) :
    x ||| y = x + y := by
  subst hx
  exact lor_eq_add k m y hy

/-- The S-type immediate before sign extension. -/
theorem pack_s (a b : Nat) (ha : a < 128) (hb : b < 32) :
    ((a <<< 5) % 4294967296) ||| b = 32 * a + b := by
  rw [Nat.shiftLeft_eq, Nat.mod_eq_of_lt (by omega)]
  rw [lor_add_of 5 a (a * 2 ^ 5) b (by omega) (by omega)]
  omega

/-- The B-type immediate before sign extension. -/
theorem pack_b (a b c d : Nat) (ha : a < 2) (hb : b < 2) (hc : c < 64) (hd : d < 16) :
    ((a <<< 12) % 4294967296) ||| ((b <<< 11) % 4294967296) |||
      ((c <<< 5) % 4294967296) ||| ((d <<< 1) % 4294967296)
      = 4096 * a + 2048 * b + 32 * c + 2 * d := by
  simp only [Nat.shiftLeft_eq]
  rw [Nat.mod_eq_of_lt (by omega : a * 2 ^ 12 < 4294967296),
    Nat.mod_eq_of_lt (by omega : b * 2 ^ 11 < 4294967296),
    Nat.mod_eq_of_lt (by omega : c * 2 ^ 5 < 4294967296),
    Nat.mod_eq_of_lt (by omega : d * 2 ^ 1 < 4294967296)]
  rw [lor_add_of 12 a (a * 2 ^ 12) (b * 2 ^ 11) (by omega) (by omega)]
  rw [lor_add_of 11 (2 * a + b) (a * 2 ^ 12 + b * 2 ^ 11) (c * 2 ^ 5) (by omega) (by omega)]
  rw [lor_add_of 5 (128 * a + 64 * b + c) (a * 2 ^ 12 + b * 2 ^ 11 + c * 2 ^ 5) (d * 2 ^ 1)
    (by omega) (by omega)]
  omega

/-- The J-type immediate before sign extension. -/
theorem pack_j (a b c d : Nat) (ha : a < 2) (hb : b < 256) (hc : c < 2) (hd : d < 1024) :
    ((a <<< 20) % 4294967296) ||| ((b <<< 12) % 4294967296) |||
      ((c <<< 11) % 4294967296) ||| ((d <<< 1) % 4294967296)
      = 1048576 * a + 4096 * b + 2048 * c + 2 * d := by
  simp only [Nat.shiftLeft_eq]
  rw [Nat.mod_eq_of_lt (by omega : a * 2 ^ 20 < 4294967296),
    Nat.mod_eq_of_lt (by omega : b * 2 ^ 12 < 4294967296),
    Nat.mod_eq_of_lt (by omega : c * 2 ^ 11 < 4294967296),
    Nat.mod_eq_of_lt (by omega : d * 2 ^ 1 < 4294967296)]
  rw [lor_add_of 20 a (a * 2 ^ 20) (b * 2 ^ 12) (by omega) (by omega)]
  rw [lor_add_of 12 (256 * a + b) (a * 2 ^ 20 + b * 2 ^ 12) (c * 2 ^ 11) (by omega) (by omega)]
  rw [lor_add_of 11 (512 * a + 2 * b + c) (a * 2 ^ 20 + b * 2 ^ 12 + c * 2 ^ 11) (d * 2 ^ 1)
    (by omega) (by omega)]
  omega

theorem decodeImm_i (w opcode : Nat) (h : opcode = 0x13 ∨ opcode = 0x03 ∨ opcode = 0x67) :
    decodeImm w opcode =
      if w / 2 ^ 20 % 4096 < 2048 then ((w / 2 ^ 20 % 4096 : Nat) : Int)
      else ((w / 2 ^ 20 % 4096 : Nat) : Int) - 4096 := by
  unfold decodeImm
  rw [if_pos h]
  simp only []
  rw [extract_bits_eq]
  exact sign_extend_12 _ (Nat.mod_lt _ (by decide))

theorem decodeImm_s (w : Nat) :
    decodeImm w 0x23 =
      if 32 * (w / 2 ^ 25 % 128) + w / 2 ^ 7 % 32 < 2048
      then ((32 * (w / 2 ^ 25 % 128) + w / 2 ^ 7 % 32 : Nat) : Int)
      else ((32 * (w / 2 ^ 25 % 128) + w / 2 ^ 7 % 32 : Nat) : Int) - 4096 := by
  unfold decodeImm
  rw [if_neg (by decide), if_pos rfl]
  simp only []
  rw [extract_bits_eq, extract_bits_eq]
  have h1 : w / 2 ^ 25 % 2 ^ 7 < 128 := Nat.mod_lt _ (by decide)
  have h2 : w / 2 ^ 7 % 2 ^ 5 < 32 := Nat.mod_lt _ (by decide)
  rw [pack_s _ _ h1 h2]
  exact sign_extend_12 _ (by omega)

theorem decodeImm_b (w : Nat) :
    decodeImm w 0x63 =
      -4096 * ((w / 2 ^ 31 % 2 : Nat) : Int) + 2048 * ((w / 2 ^ 7 % 2 : Nat) : Int)
        + 32 * ((w / 2 ^ 25 % 64 : Nat) : Int) + 2 * ((w / 2 ^ 8 % 16 : Nat) : Int) := by
  unfold decodeImm
  rw [if_neg (by decide), if_neg (by decide), if_pos rfl]
  simp only []
  simp only [extract_bits_eq]
  have h1 : w / 2 ^ 31 % 2 ^ 1 < 2 := Nat.mod_lt _ (by decide)
  have h2 : w / 2 ^ 7 % 2 ^ 1 < 2 := Nat.mod_lt _ (by decide)
  have h3 : w / 2 ^ 25 % 2 ^ 6 < 64 := Nat.mod_lt _ (by decide)
  have h4 : w / 2 ^ 8 % 2 ^ 4 < 16 := Nat.mod_lt _ (by decide)
  rw [pack_b _ _ _ _ h1 h2 h3 h4, sign_extend_13 _ (by omega)]
  split_ifs <;> omega

theorem decodeImm_j (w : Nat) :
    decodeImm w 0x6F =
      -1048576 * ((w / 2 ^ 31 % 2 : Nat) : Int) + 4096 * ((w / 2 ^ 12 % 256 : Nat) : Int)
        + 2048 * ((w / 2 ^ 20 % 2 : Nat) : Int) + 2 * ((w / 2 ^ 21 % 1024 : Nat) : Int) := by
  unfold decodeImm
  rw [if_neg (by decide), if_neg (by decide), if_neg (by decide), if_pos rfl]
  simp only []
  simp only [extract_bits_eq]
  have h1 : w / 2 ^ 31 % 2 ^ 1 < 2 := Nat.mod_lt _ (by decide)
  have h2 : w / 2 ^ 12 % 2 ^ 8 < 256 := Nat.mod_lt _ (by decide)
  have h3 : w / 2 ^ 20 % 2 ^ 1 < 2 := Nat.mod_lt _ (by decide)
  have h4 : w / 2 ^ 21 % 2 ^ 10 < 1024 := Nat.mod_lt _ (by decide)
  rw [pack_j _ _ _ _ h1 h2 h3 h4, sign_extend_21 _ (by omega)]
  split_ifs <;> omega

theorem decodeImm_other (w opcode : Nat)
    (h : opcode ≠ 0x13 ∧ opcode ≠ 0x03 ∧ opcode ≠ 0x67 ∧ opcode ≠ 0x23 ∧ opcode ≠ 0x63 ∧
      opcode ≠ 0x6F) : decodeImm w opcode = 0 := by
  obtain ⟨h1, h2, h3, h4, h5, h6⟩ := h
  unfold decodeImm
  simp [h1, h2, h3, h4, h5, h6]

/-! ## Frame of a cycle, pc parity and the run loop -/

theorem ControlUnit_rtype (s : State) (opcode : Nat) (h : opcode = 0x33) :
    ControlUnit s opcode =
      { s with RegWrite := 1, MemtoReg := 0, MemRead := 0, MemWrite := 0,
               ALUSrc := 0, Branch := 0, ALUOp0 := 0, ALUOp1 := 1, Jump := 0 } := by
  subst h; rfl

theorem ControlUnit_iarith (s : State) (opcode : Nat) (h : opcode = 0x13) :
    ControlUnit s opcode =
      { s with RegWrite := 1, MemtoReg := 0, MemRead := 0, MemWrite := 0,
               ALUSrc := 1, Branch := 0, ALUOp0 := 0, ALUOp1 := 1, Jump := 0 } := by
  subst h; rfl

theorem ControlUnit_total_clock_cycles (s : State) (opcode : Nat) :
    (ControlUnit s opcode).total_clock_cycles = s.total_clock_cycles := by
  unfold ControlUnit
  simp only []
  split_ifs <;> rfl

theorem ControlUnit_instr_count (s : State) (opcode : Nat) :
    (ControlUnit s opcode).instr_count = s.instr_count := by
  unfold ControlUnit
  simp only []
  split_ifs <;> rfl

theorem ControlUnit_instr_mem (s : State) (opcode : Nat) :
    (ControlUnit s opcode).instr_mem = s.instr_mem := by
  unfold ControlUnit
  simp only []
  split_ifs <;> rfl

/-- Every cycle that fetches an instruction increments the (wrapped) counter. -/
theorem cycle_total_clock_cycles (s : State) (hf : fetchable s) :
    (cycle s).total_clock_cycles = toS32 (s.total_clock_cycles + 1) := by
  rw [cycle_of_fetchable s hf]
  simp only [stages, Writeback_eq, Mem_eq, Execute_eq, Decode_fst,
    ControlUnit_total_clock_cycles]

/-- No cycle changes `instr_count`. -/
theorem cycle_instr_count (s : State) : (cycle s).instr_count = s.instr_count := by
  by_cases hf : fetchable s
  · rw [cycle_of_fetchable s hf]
    simp only [stages, Writeback_eq, Mem_eq, Execute_eq, Decode_fst, ControlUnit_instr_count]
  · rw [cycle_of_not_fetchable s hf]

/-- No cycle changes `instr_mem`. -/
theorem cycle_instr_mem (s : State) : (cycle s).instr_mem = s.instr_mem := by
  by_cases hf : fetchable s
  · rw [cycle_of_fetchable s hf]
    simp only [stages, Writeback_eq, Mem_eq, Execute_eq, Decode_fst, ControlUnit_instr_mem]
  · rw [cycle_of_not_fetchable s hf]

/-- An R-type instruction: the ALU result goes to `rd`, pc advances. -/
theorem cycle_rtype (s : State) (hf : fetchable s) (hop : opcodeOf (currentInstr s) = 0x33) :
    (cycle s).d_mem = s.d_mem ∧
    (cycle s).rf =
      (if (decoded s).rd ≠ 0 then
        setAt s.rf (decoded s).rd
          (aluOp (ALUControl 0 0 1 (decoded s).funct3 (decoded s).funct7)
            (decoded s).rs1_val (decoded s).rs2_val)
      else s.rf) ∧
    (cycle s).pc = (s.pc + 4) % 4294967296 := by
  rw [cycle_of_fetchable s hf]
  unfold opcodeOf at hop
  simp only [stages, Writeback_eq, Mem_eq, Execute_eq, Decode_fst, Decode_snd,
    ControlUnit_rtype _ _ hop, decoded]
  simp

/-- An I-type arithmetic instruction: the ALU result goes to `rd`, pc advances. -/
theorem cycle_iarith (s : State) (hf : fetchable s) (hop : opcodeOf (currentInstr s) = 0x13) :
    (cycle s).d_mem = s.d_mem ∧
    (cycle s).rf =
      (if (decoded s).rd ≠ 0 then
        setAt s.rf (decoded s).rd
          (aluOp (ALUControl 1 0 1 (decoded s).funct3 (decoded s).funct7)
            (decoded s).rs1_val (decoded s).imm)
      else s.rf) ∧
    (cycle s).pc = (s.pc + 4) % 4294967296 := by
  rw [cycle_of_fetchable s hf]
  unfold opcodeOf at hop
  simp only [stages, Writeback_eq, Mem_eq, Execute_eq, Decode_fst, Decode_snd,
    ControlUnit_iarith _ _ hop, decoded]
  simp

/-- Every instruction other than a branch, JAL or JALR moves pc to `pc + 4`. -/
theorem cycle_pc_sequential (s : State) (hf : fetchable s)
    (h63 : opcodeOf (currentInstr s) ≠ 0x63) (h6F : opcodeOf (currentInstr s) ≠ 0x6F)
    (h67 : opcodeOf (currentInstr s) ≠ 0x67) :
    (cycle s).pc = (s.pc + 4) % 4294967296 := by
  by_cases h33 : opcodeOf (currentInstr s) = 0x33
  · exact (cycle_rtype s hf h33).2.2
  by_cases h13 : opcodeOf (currentInstr s) = 0x13
  · exact (cycle_iarith s hf h13).2.2
  by_cases h03 : opcodeOf (currentInstr s) = 0x03
  · exact (cycle_load s hf h03).2.2.1
  by_cases h23 : opcodeOf (currentInstr s) = 0x23
  · exact (cycle_store s hf h23).2.2.1
  have hun : ¬ supportedOpcode (opcodeOf (currentInstr s)) := by
    unfold supportedOpcode
    simp only [not_or]
    exact ⟨h33, h13, h03, h23, h63, h6F, h67⟩
  exact (cycle_unsupported s hf hun).2.2.1

/-- Evenness of pc is preserved by every cycle. -/
theorem cycle_pc_even (s : State) (h : s.pc % 2 = 0) : (cycle s).pc % 2 = 0 := by
  by_cases hf : fetchable s
  · by_cases h63 : opcodeOf (currentInstr s) = 0x63
    · have himm : (decoded s).imm % 2 = 0 := by
        unfold decoded; rw [Decode_snd]; simp only []
        unfold opcodeOf at h63
        rw [h63, decodeImm_b]; omega
      rw [(cycle_branch s hf h63).2.2.2.1]
      split_ifs
      · unfold toU32; omega
      · omega
    by_cases h6F : opcodeOf (currentInstr s) = 0x6F
    · have himm : (decoded s).imm % 2 = 0 := by
        unfold decoded; rw [Decode_snd]; simp only []
        unfold opcodeOf at h6F
        rw [h6F, decodeImm_j]; omega
      rw [(cycle_jal s hf h6F).2.2.1]
      unfold toU32; omega
    by_cases h67 : opcodeOf (currentInstr s) = 0x67
    · rw [(cycle_jalr s hf h67).2.2.1, land_clear_bit0 _ (toU32_lt _)]
      omega
    rw [cycle_pc_sequential s hf h63 h6F h67]
    omega
  · rw [cycle_of_not_fetchable s hf]
    exact h

theorem cycles_pc_even (s : State) (h : s.pc % 2 = 0) (n : Nat) : (cycles n s).pc % 2 = 0 := by
  induction n with
  | zero => exact h
  | succ k ih => exact cycle_pc_even _ ih

/-- One iteration of the loop of `main`, in terms of `cycle`. -/
theorem mainLoop_succ (fuel : Nat) (s : State) :
    mainLoop (fuel + 1) s =
      if fetchable s then
        (if safeguard (cycle s) then some (cycle s) else mainLoop fuel (cycle s))
      else some s := by
  by_cases hf : fetchable s
  · have h : ¬ (s.pc / 4 ≥ toU32 s.instr_count) := by unfold fetchable at hf; omega
    have hf' : s.pc / 4 < toU32 s.instr_count := hf
    rw [if_pos hf]
    simp only [mainLoop, cycle, Fetch, if_pos hf', if_neg h, h, and_false, if_false]
  · have hf' : ¬ (s.pc / 4 < toU32 s.instr_count) := hf
    rw [if_neg hf]
    simp only [mainLoop, if_neg hf']

/-- The loop exits within `k + 1` iterations when the counter is `k` below
`5 * instr_count`. -/
theorem mainLoop_exits (n : Int) (hn1 : 1 ≤ n) (hn2 : n ≤ 100) (k : Nat) :
    ∀ (fuel : Nat) (s : State), s.instr_count = n → s.total_clock_cycles + k = 5 * n →
      0 ≤ s.total_clock_cycles → k + 1 ≤ fuel →
      ∃ s', mainLoop fuel s = some s' ∧ s'.instr_count = n ∧
        0 ≤ s'.total_clock_cycles ∧ s'.total_clock_cycles ≤ 5 * n + 1 ∧
        (safeguard s' = false → ¬ fetchable s') := by
  induction k with
  | zero =>
    intro fuel s hcount hk h0 hfuel
    obtain ⟨fuel', rfl⟩ : ∃ f, fuel = f + 1 := ⟨fuel - 1, by omega⟩
    rw [mainLoop_succ]
    by_cases hf : fetchable s
    · have hc : (cycle s).total_clock_cycles = s.total_clock_cycles + 1 := by
        rw [cycle_total_clock_cycles s hf]; unfold toS32; omega
      have hsg : safeguard (cycle s) = true := by
        unfold safeguard
        rw [cycle_instr_count, hc, hcount]
        simp only [decide_eq_true_eq]
        unfold toS32; omega
      rw [if_pos hf, if_pos hsg]
      refine ⟨cycle s, rfl, ?_, ?_, ?_, ?_⟩
      · rw [cycle_instr_count, hcount]
      · omega
      · omega
      · intro h; rw [hsg] at h; exact absurd h (by decide)
    · rw [if_neg hf]
      exact ⟨s, rfl, hcount, h0, by omega, fun _ => hf⟩
  | succ k ih =>
    intro fuel s hcount hk h0 hfuel
    obtain ⟨fuel', rfl⟩ : ∃ f, fuel = f + 1 := ⟨fuel - 1, by omega⟩
    rw [mainLoop_succ]
    by_cases hf : fetchable s
    · have hc : (cycle s).total_clock_cycles = s.total_clock_cycles + 1 := by
        rw [cycle_total_clock_cycles s hf]; unfold toS32; omega
      have hsg : safeguard (cycle s) = false := by
        unfold safeguard
        rw [cycle_instr_count, hc, hcount]
        simp only [decide_eq_false_iff_not]
        unfold toS32; omega
      rw [if_pos hf, hsg]
      simp only [Bool.false_eq_true, if_false]
      exact ih fuel' (cycle s) (by rw [cycle_instr_count, hcount]) (by omega) (by omega)
        (by omega)
    · rw [if_neg hf]
      exact ⟨s, rfl, hcount, h0, by omega, fun _ => hf⟩

/-! ## States that agree on the architectural part -/

theorem currentInstr_congr (s t : State) (hpc : s.pc = t.pc)
    (him : s.instr_mem = t.instr_mem) : currentInstr s = currentInstr t := by
  unfold currentInstr
  rw [hpc, him]

theorem decoded_congr (s t : State) (hpc : s.pc = t.pc) (hrf : s.rf = t.rf)
    (him : s.instr_mem = t.instr_mem) : decoded s = decoded t := by
  unfold decoded
  rw [Decode_snd, Decode_snd, currentInstr_congr s t hpc him, hrf]

theorem memAddress_congr (s t : State) (hpc : s.pc = t.pc) (hrf : s.rf = t.rf)
    (him : s.instr_mem = t.instr_mem) : memAddress s = memAddress t := by
  unfold memAddress
  rw [decoded_congr s t hpc hrf him]

/-! ## Encoding an immediate -/

theorem opcodeOf_eq_mod (w : Nat) : opcodeOf w = w % 128 := by
  unfold opcodeOf
  exact Nat.and_pow_two_sub_one_eq_mod w 7

theorem Decode_imm (s : State) (w : Nat) : (Decode s w).2.imm = decodeImm w (opcodeOf w) := by
  rw [Decode_snd]
  rfl

/-- Every 12-bit signed value is the immediate of an I-type word of each of the
three I opcodes. -/
theorem encode_i (x : Int) (hlo : -2048 ≤ x) (hhi : x ≤ 2047) (opcode : Nat)
    (hop : opcode = 0x13 ∨ opcode = 0x03 ∨ opcode = 0x67) :
    ∃ w : Nat, w < 4294967296 ∧ opcodeOf w = opcode ∧ decodeImm w opcode = x := by
  refine ⟨(x % 4096).toNat * 1048576 + opcode, ?_, ?_, ?_⟩
  · rcases hop with h | h | h <;> omega
  · rw [opcodeOf_eq_mod]
    rcases hop with h | h | h <;> omega
  · rw [decodeImm_i _ _ hop]
    have e : ((x % 4096).toNat * 1048576 + opcode) / 2 ^ 20 % 4096 = (x % 4096).toNat := by
      rcases hop with h | h | h <;> omega
    rw [e]
    split_ifs <;> omega

/-- Every 12-bit signed value is the immediate of an S-type word. -/
theorem encode_s (x : Int) (hlo : -2048 ≤ x) (hhi : x ≤ 2047) :
    ∃ w : Nat, w < 4294967296 ∧ opcodeOf w = 0x23 ∧ decodeImm w 0x23 = x := by
  refine ⟨(x % 4096).toNat / 32 * 33554432 + (x % 4096).toNat % 32 * 128 + 0x23, ?_, ?_, ?_⟩
  · omega
  · rw [opcodeOf_eq_mod]; omega
  · rw [decodeImm_s]
    have e1 : ((x % 4096).toNat / 32 * 33554432 + (x % 4096).toNat % 32 * 128 + 0x23)
        / 2 ^ 25 % 128 = (x % 4096).toNat / 32 := by omega
    have e2 : ((x % 4096).toNat / 32 * 33554432 + (x % 4096).toNat % 32 * 128 + 0x23)
        / 2 ^ 7 % 32 = (x % 4096).toNat % 32 := by omega
    rw [e1, e2]
    split_ifs <;> omega

/-- The fields `Decode` reads back from a B-type word built from them. -/
theorem fields_b (a b c d : Nat) (ha : a < 2) (hb : b < 2) (hc : c < 64) (hd : d < 16) :
    a * 2147483648 + c * 33554432 + d * 256 + b * 128 + 0x63 < 4294967296 ∧
    (a * 2147483648 + c * 33554432 + d * 256 + b * 128 + 0x63) % 128 = 0x63 ∧
    (a * 2147483648 + c * 33554432 + d * 256 + b * 128 + 0x63) / 2 ^ 31 % 2 = a ∧
    (a * 2147483648 + c * 33554432 + d * 256 + b * 128 + 0x63) / 2 ^ 7 % 2 = b ∧
    (a * 2147483648 + c * 33554432 + d * 256 + b * 128 + 0x63) / 2 ^ 25 % 64 = c ∧
    (a * 2147483648 + c * 33554432 + d * 256 + b * 128 + 0x63) / 2 ^ 8 % 16 = d := by
  refine ⟨?_, ?_, ?_, ?_, ?_, ?_⟩ <;> omega

/-- The fields `Decode` reads back from a J-type word built from them. -/
theorem fields_j (a b c d : Nat) (ha : a < 2) (hb : b < 256) (hc : c < 2) (hd : d < 1024) :
    a * 2147483648 + d * 2097152 + c * 1048576 + b * 4096 + 0x6F < 4294967296 ∧
    (a * 2147483648 + d * 2097152 + c * 1048576 + b * 4096 + 0x6F) % 128 = 0x6F ∧
    (a * 2147483648 + d * 2097152 + c * 1048576 + b * 4096 + 0x6F) / 2 ^ 31 % 2 = a ∧
    (a * 2147483648 + d * 2097152 + c * 1048576 + b * 4096 + 0x6F) / 2 ^ 12 % 256 = b ∧
    (a * 2147483648 + d * 2097152 + c * 1048576 + b * 4096 + 0x6F) / 2 ^ 20 % 2 = c ∧
    (a * 2147483648 + d * 2097152 + c * 1048576 + b * 4096 + 0x6F) / 2 ^ 21 % 1024 = d := by
  refine ⟨?_, ?_, ?_, ?_, ?_, ?_⟩ <;> omega

theorem split_b (v : Nat) (hv : v % 2 = 0) :
    4096 * (v / 4096) + 2048 * (v / 2048 % 2) + 32 * (v / 32 % 64) + 2 * (v / 2 % 16) = v := by
  omega

theorem split_j (v : Nat) (hv : v % 2 = 0) :
    1048576 * (v / 1048576) + 4096 * (v / 4096 % 256) + 2048 * (v / 2048 % 2)
      + 2 * (v / 2 % 1024) = v := by
  omega

/-- Every even 13-bit signed value is the immediate of a B-type word. -/
theorem encode_b (x : Int) (hlo : -4096 ≤ x) (hhi : x ≤ 4094) (hev : x % 2 = 0) :
    ∃ w : Nat, w < 4294967296 ∧ opcodeOf w = 0x63 ∧ decodeImm w 0x63 = x := by
  have hxv : (((x % 8192).toNat : Nat) : Int) = x % 8192 := by omega
  have hv2 : (x % 8192).toNat % 2 = 0 := by omega
  have hdec := split_b (x % 8192).toNat hv2
  have ha : (x % 8192).toNat / 4096 < 2 := by omega
  have hb : (x % 8192).toNat / 2048 % 2 < 2 := by omega
  have hc : (x % 8192).toNat / 32 % 64 < 64 := by omega
  have hd : (x % 8192).toNat / 2 % 16 < 16 := by omega
  obtain ⟨h1, h2, h3, h4, h5, h6⟩ := fields_b _ _ _ _ ha hb hc hd
  refine ⟨_, h1, ?_, ?_⟩
  · rw [opcodeOf_eq_mod]; exact h2
  · rw [decodeImm_b, h3, h4, h5, h6]
    clear h1 h2 h3 h4 h5 h6
    generalize (x % 8192).toNat / 4096 = a at *
    generalize (x % 8192).toNat / 2048 % 2 = b at *
    generalize (x % 8192).toNat / 32 % 64 = c at *
    generalize (x % 8192).toNat / 2 % 16 = d at *
    omega

/-- Every even 21-bit signed value is the immediate of a J-type word. -/
theorem encode_j (x : Int) (hlo : -1048576 ≤ x) (hhi : x ≤ 1048574) (hev : x % 2 = 0) :
    ∃ w : Nat, w < 4294967296 ∧ opcodeOf w = 0x6F ∧ decodeImm w 0x6F = x := by
  have hxv : (((x % 2097152).toNat : Nat) : Int) = x % 2097152 := by omega
  have hv2 : (x % 2097152).toNat % 2 = 0 := by omega
  have hdec := split_j (x % 2097152).toNat hv2
  have ha : (x % 2097152).toNat / 1048576 < 2 := by omega
  have hb : (x % 2097152).toNat / 4096 % 256 < 256 := by omega
  have hc : (x % 2097152).toNat / 2048 % 2 < 2 := by omega
  have hd : (x % 2097152).toNat / 2 % 1024 < 1024 := by omega
  obtain ⟨h1, h2, h3, h4, h5, h6⟩ := fields_j _ _ _ _ ha hb hc hd
  refine ⟨_, h1, ?_, ?_⟩
  · rw [opcodeOf_eq_mod]; exact h2
  · rw [decodeImm_j, h3, h4, h5, h6]
    clear h1 h2 h3 h4 h5 h6
    generalize (x % 2097152).toNat / 1048576 = a at *
    generalize (x % 2097152).toNat / 4096 % 256 = b at *
    generalize (x % 2097152).toNat / 2048 % 2 = c at *
    generalize (x % 2097152).toNat / 2 % 1024 = d at *
    omega

/-! ## Memory faults (C1) -/

/-- C1, counterexample: with the part 1 seeds (x2 = 5, x10 = 0x70) the load
`lw x2, 1(x10)` computes the misaligned address 0x71, and after its cycle
`rf[2]` is 0, not 5: the register file is not left as it was. -/
theorem faulting_load_clobbers_rd :
    fetchable (mkState [0x00152103] rfPart1 dmemPart1) ∧
    opcodeOf (currentInstr (mkState [0x00152103] rfPart1 dmemPart1)) = 0x03 ∧
    memAddress (mkState [0x00152103] rfPart1 dmemPart1) = 0x71 ∧
    memFault (memAddress (mkState [0x00152103] rfPart1 dmemPart1)) ∧
    (mkState [0x00152103] rfPart1 dmemPart1).rf 2 = 5 ∧
    (cycle (mkState [0x00152103] rfPart1 dmemPart1)).rf 2 = 0 := by
  decide

/-- C1, amended: for a load (0x03) or store (0x23) whose computed address is
not a multiple of 4 or whose word index is outside `[0, 32)`, the cycle leaves
the whole data memory as it was; a store also leaves the whole register file
as it was; a load leaves every register other than its destination `rd`
(and register 0 in any case) as it was. -/
theorem faulting_access_effect (s : State) (hf : fetchable s)
    (hop : opcodeOf (currentInstr s) = 0x03 ∨ opcodeOf (currentInstr s) = 0x23)
    (hfault : memFault (memAddress s)) :
    (cycle s).d_mem = s.d_mem ∧
    (opcodeOf (currentInstr s) = 0x23 → (cycle s).rf = s.rf) ∧
    (∀ i, i ≠ (decoded s).rd ∨ i = 0 → (cycle s).rf i = s.rf i) := by
  rcases hop with hop | hop
  · obtain ⟨hm, hr, -, -⟩ := cycle_load s hf hop
    refine ⟨hm, ?_, ?_⟩
    · intro h
      rw [hop] at h
      exact absurd h (by decide)
    · intro i hi
      rcases hi with hi | hi
      · rw [hr]
        split_ifs
        · exact setAt_ne _ _ _ _ hi
        · rfl
      · rw [hi]
        exact cycle_rf_zero s
  · obtain ⟨hm, hr, -, -⟩ := cycle_store s hf hop
    rw [if_pos hfault] at hm
    exact ⟨hm, fun _ => hr, fun i _ => by rw [hr]⟩

/-- C1, witness: the misaligned store `sw x2, 1(x10)` (address 0x71) on the
part 1 seeds changes neither the data memory nor the register file. -/
theorem faulting_access_effect_witness :
    fetchable (mkState [0x002520A3] rfPart1 dmemPart1) ∧
    opcodeOf (currentInstr (mkState [0x002520A3] rfPart1 dmemPart1)) = 0x23 ∧
    memAddress (mkState [0x002520A3] rfPart1 dmemPart1) = 0x71 ∧
    (cycle (mkState [0x002520A3] rfPart1 dmemPart1)).d_mem = dmemPart1 ∧
    (cycle (mkState [0x002520A3] rfPart1 dmemPart1)).rf = rfPart1 :=
  ⟨by decide, by decide, by decide,
   (faulting_access_effect (mkState [0x002520A3] rfPart1 dmemPart1) (by decide)
      (Or.inr (by decide)) (by decide)).1,
   (faulting_access_effect (mkState [0x002520A3] rfPart1 dmemPart1) (by decide)
      (Or.inr (by decide)) (by decide)).2.1 (by decide)⟩

/-! ## Store then load (C2) -/

/-- C2: when a store (0x23) to an aligned, in-range address is executed and the
next instruction executed is a load (0x03) with `rd ≠ 0` that computes the
same address, then after the load `rf[rd]` is the `rs2` value the store read
(x0 reading as 0). -/
theorem store_load_round_trip (s : State)
    (hf : fetchable s) (hop : opcodeOf (currentInstr s) = 0x23)
    (hok : ¬ memFault (memAddress s))
    (hf1 : fetchable (cycle s)) (hop1 : opcodeOf (currentInstr (cycle s)) = 0x03)
    (hrd : (decoded (cycle s)).rd ≠ 0)
    (haddr : memAddress (cycle s) = memAddress s) :
    (cycle (cycle s)).rf (decoded (cycle s)).rd = (decoded s).rs2_val := by
  obtain ⟨hm, -, -, -⟩ := cycle_store s hf hop
  obtain ⟨-, hr, -, -⟩ := cycle_load (cycle s) hf1 hop1
  rw [if_neg hok] at hm
  rw [hr, if_pos hrd, setAt_same, haddr, if_neg hok, hm, setAt_same]

/-- C2, witness: x1 = 0x20, x2 = 0x5; `sw x2, 0(x1)` then `lw x3, 0(x1)`
leaves x3 = 0x5. -/
theorem store_load_round_trip_witness :
    rfPart1 1 = 0x20 ∧ rfPart1 2 = 0x5 ∧
    (cycle (cycle (mkState [0x0020A023, 0x0000A183] rfPart1 dmemPart1))).rf 3 = 0x5 :=
  ⟨by decide, by decide,
   store_load_round_trip (mkState [0x0020A023, 0x0000A183] rfPart1 dmemPart1)
    (by decide) (by decide) (by decide) (by decide) (by decide) (by decide) (by decide)⟩

/-! ## Branches (C3) -/

/-- C3: for a branch (opcode 0x63, any funct3) fetched at `pc` with operand
values `a`, `b` and immediate `imm`: the taken flag `alu_zero` is set iff
`a = b`; afterwards `pc = (pc + imm) mod 2^32` when `a = b` and `pc = pc + 4`
when `a ≠ b`; and the register file and the data memory are unchanged. The
registers hold `int` values and `pc + 4` does not wrap. -/
theorem branch_semantics (s : State) (hf : fetchable s)
    (hop : opcodeOf (currentInstr s) = 0x63)
    (hrf : ∀ i, IsInt32 (s.rf i)) (hpc : s.pc + 4 < 4294967296) :
    ((cycle s).alu_zero ≠ 0 ↔ (decoded s).rs1_val = (decoded s).rs2_val) ∧
    ((decoded s).rs1_val = (decoded s).rs2_val →
      (cycle s).pc = (((s.pc : Int) + (decoded s).imm) % 4294967296).toNat) ∧
    ((decoded s).rs1_val ≠ (decoded s).rs2_val → (cycle s).pc = s.pc + 4) ∧
    (cycle s).rf = s.rf ∧ (cycle s).d_mem = s.d_mem := by
  obtain ⟨hm, hr, hz, hp, -⟩ := cycle_branch s hf hop
  have h1 : IsInt32 (decoded s).rs1_val := by
    unfold decoded; rw [Decode_snd]; simp only []
    split_ifs
    · unfold IsInt32; omega
    · exact hrf _
  have h2 : IsInt32 (decoded s).rs2_val := by
    unfold decoded; rw [Decode_snd]; simp only []
    split_ifs
    · unfold IsInt32; omega
    · exact hrf _
  have hiff := toS32_sub_eq_zero _ _ h1 h2
  refine ⟨?_, ?_, ?_, hr, hm⟩
  · rw [hz, ← hiff]
    split_ifs with h <;> simp [h]
  · intro h
    rw [hp, if_pos (hiff.mpr h)]
    rfl
  · intro h
    rw [hp, if_neg (fun h' => h (hiff.mp h'))]
    omega

/-- C3, witness: on the part 1 seeds `beq x2, x2, 8` is taken (pc = 8) and
`beq x1, x2, 8` is not (pc = 4). -/
theorem branch_semantics_witness :
    (decoded (mkState [0x00210463] rfPart1 dmemPart1)).imm = 8 ∧
    (cycle (mkState [0x00210463] rfPart1 dmemPart1)).pc = 8 ∧
    (cycle (mkState [0x00208463] rfPart1 dmemPart1)).pc = 4 :=
  ⟨by decide,
   (branch_semantics (mkState [0x00210463] rfPart1 dmemPart1) (by decide) (by decide)
      rfPart1_int32 (by decide)).2.1 (by decide),
   (branch_semantics (mkState [0x00208463] rfPart1 dmemPart1) (by decide) (by decide)
      rfPart1_int32 (by decide)).2.2.1 (by decide)⟩

/-! ## Register 0 (C4) -/

/-- C4: no cycle changes `rf[0]` (in particular not the cycle of an instruction
whose `rd` field is 0, whatever its opcode), and a `Decode` after it of any
word with `rs1 = 0` (resp. `rs2 = 0`) reads the operand value 0. -/
theorem register_zero_unwritable (s : State) :
    (cycle s).rf 0 = s.rf 0 ∧
    ∀ w : Nat,
      ((Decode (cycle s) w).2.rs1 = 0 → (Decode (cycle s) w).2.rs1_val = 0) ∧
      ((Decode (cycle s) w).2.rs2 = 0 → (Decode (cycle s) w).2.rs2_val = 0) := by
  refine ⟨cycle_rf_zero s, ?_⟩
  intro w
  rw [Decode_snd]
  simp only []
  constructor
  · intro h; rw [if_pos h]
  · intro h; rw [if_pos h]

/-! ## Unsupported opcodes (C5, C6) -/

/-- C5, counterexample: the one-word program with opcode 0x7F. Its cycle
completes: pc goes from 0 to 4 and the cycle counter from 0 to 1. -/
theorem unsupported_opcode_cycle_completes :
    fetchable (mkState [0x7F] rfPart1 dmemPart1) ∧
    ¬ supportedOpcode (opcodeOf (currentInstr (mkState [0x7F] rfPart1 dmemPart1))) ∧
    (mkState [0x7F] rfPart1 dmemPart1).pc = 0 ∧
    (cycle (mkState [0x7F] rfPart1 dmemPart1)).pc = 4 ∧
    (mkState [0x7F] rfPart1 dmemPart1).total_clock_cycles = 0 ∧
    (cycle (mkState [0x7F] rfPart1 dmemPart1)).total_clock_cycles = 1 := by
  decide

/-- C5, amended: for an instruction whose opcode is not one of the seven,
`Decode` leaves all nine control signals 0 and the cycle still completes:
Execute, Mem and Writeback run, so afterwards `pc = pc_before + 4` and the
cycle counter is one greater than before (neither increment overflowing). -/
theorem unsupported_opcode_advances (s : State) (hf : fetchable s)
    (hop : ¬ supportedOpcode (opcodeOf (currentInstr s)))
    (hpc : s.pc + 4 < 4294967296) (hcc : IsInt32 (s.total_clock_cycles + 1)) :
    signals (Decode s (currentInstr s)).1 = (0, 0, 0, 0, 0, 0, 0, 0, 0) ∧
    (cycle s).pc = s.pc + 4 ∧
    (cycle s).total_clock_cycles = s.total_clock_cycles + 1 := by
  obtain ⟨-, -, hp, hc⟩ := cycle_unsupported s hf hop
  refine ⟨?_, ?_, ?_⟩
  · have hop' := hop
    unfold opcodeOf at hop'
    rw [Decode_fst, ControlUnit_unsupported _ _ hop']
    rfl
  · rw [hp]; omega
  · rw [hc]; exact toS32_of_IsInt32 _ hcc

/-- C5, witness: the all-zero word (opcode 0x00) as second instruction of a
program, reached at pc = 4 after an unsupported first word. -/
theorem unsupported_opcode_advances_witness :
    (cycle (mkState [0x7F, 0x0] rfPart1 dmemPart1)).pc = 4 ∧
    (cycle (cycle (mkState [0x7F, 0x0] rfPart1 dmemPart1))).pc = 4 + 4 ∧
    (cycle (cycle (mkState [0x7F, 0x0] rfPart1 dmemPart1))).total_clock_cycles = 1 + 1 :=
  ⟨by decide,
   (unsupported_opcode_advances (cycle (mkState [0x7F, 0x0] rfPart1 dmemPart1))
      (by decide) (by decide) (by decide) (by decide)).2⟩

/-- C6: for an instruction whose opcode is not one of the seven supported
ones, the cycle changes no register and no word of data memory. -/
theorem unsupported_opcode_no_mutation (s : State)
    (hop : ¬ supportedOpcode (opcodeOf (currentInstr s))) :
    (cycle s).rf = s.rf ∧ (cycle s).d_mem = s.d_mem := by
  by_cases hf : fetchable s
  · obtain ⟨hm, hr, -, -⟩ := cycle_unsupported s hf hop
    exact ⟨hr, hm⟩
  · rw [cycle_of_not_fetchable s hf]
    exact ⟨rfl, rfl⟩

/-- C6, witness: the one-word program with opcode 0x7F on the part 1 seeds. -/
theorem unsupported_opcode_no_mutation_witness :
    ¬ supportedOpcode (opcodeOf (currentInstr (mkState [0x7F] rfPart1 dmemPart1))) ∧
    (cycle (mkState [0x7F] rfPart1 dmemPart1)).rf = rfPart1 ∧
    (cycle (mkState [0x7F] rfPart1 dmemPart1)).d_mem = dmemPart1 :=
  ⟨by decide, unsupported_opcode_no_mutation (mkState [0x7F] rfPart1 dmemPart1) (by decide)⟩

/-! ## Jump and link (C7) -/

/-- C7: for a JAL (0x6F) at `pc` with immediate `imm`, afterwards
`pc = (pc + imm) mod 2^32`; for a JALR (0x67) with `rs1` value `v` (read by
Decode, before the write-back, also when `rd = rs1`), afterwards `pc` is
`(v + imm) mod 2^32` with bit 0 cleared; in both cases `rf[rd] = pc_before + 4`
when `rd ≠ 0`. The link value `pc + 4` fits an `int`. -/
theorem jump_and_link_semantics (s : State) (hf : fetchable s)
    (hpc : s.pc + 4 < 2147483648) :
    (opcodeOf (currentInstr s) = 0x6F →
      (cycle s).pc = (((s.pc : Int) + (decoded s).imm) % 4294967296).toNat ∧
      ((decoded s).rd ≠ 0 → (cycle s).rf (decoded s).rd = (s.pc : Int) + 4)) ∧
    (opcodeOf (currentInstr s) = 0x67 →
      (cycle s).pc =
        (((decoded s).rs1_val + (decoded s).imm) % 4294967296).toNat / 2 * 2 ∧
      ((decoded s).rd ≠ 0 → (cycle s).rf (decoded s).rd = (s.pc : Int) + 4)) := by
  have hlink : toS32 (((s.pc + 4) % 4294967296 : Nat) : Int) = (s.pc : Int) + 4 := by
    unfold toS32; omega
  constructor
  · intro hop
    obtain ⟨-, hr, hp, -⟩ := cycle_jal s hf hop
    refine ⟨hp, ?_⟩
    intro hrd
    rw [hr, if_pos hrd, setAt_same, hlink]
  · intro hop
    obtain ⟨-, hr, hp, -⟩ := cycle_jalr s hf hop
    constructor
    · rw [hp, toU32_toS32, land_clear_bit0 _ (toU32_lt _)]
      rfl
    · intro hrd
      rw [hr, if_pos hrd, setAt_same, hlink]

/-- C7, witness: x10 = 0x5 (part 2 seeds); `jalr x1, x10, 0` gives pc = 0x4 and
x1 = pc_before + 4, and `jalr x10, x10, 0` jumps to 0x4 as well, from the old
x10. -/
theorem jump_and_link_semantics_witness :
    rfPart2 10 = 0x5 ∧
    (cycle (mkState [0x000500E7] rfPart2 dmemPart2)).pc = 0x4 ∧
    (cycle (mkState [0x000500E7] rfPart2 dmemPart2)).rf 1
      = ((mkState [0x000500E7] rfPart2 dmemPart2).pc : Int) + 4 ∧
    (cycle (mkState [0x00050567] rfPart2 dmemPart2)).pc = 0x4 ∧
    (cycle (mkState [0x00050567] rfPart2 dmemPart2)).rf 10 = 4 :=
  ⟨by decide,
   ((jump_and_link_semantics (mkState [0x000500E7] rfPart2 dmemPart2) (by decide)
      (by decide)).2 (by decide)).1,
   ((jump_and_link_semantics (mkState [0x000500E7] rfPart2 dmemPart2) (by decide)
      (by decide)).2 (by decide)).2 (by decide),
   by decide, by decide⟩

/-! ## Control unit and ALU control (C8, C9, C10) -/

/-- C8: from any prior signal values, after `ControlUnit(opcode)` the vector
(RegWrite, MemRead, MemWrite, MemtoReg, ALUSrc, Branch, Jump, ALUOp1, ALUOp0)
is the row of the specified table for that opcode, and all zeros for every
opcode outside the seven. -/
theorem ControlUnit_table (s : State) (opcode : Nat) :
    signals (ControlUnit s opcode) = specControlTable opcode := by
  unfold ControlUnit specControlTable signals
  simp only []
  split_ifs <;> rfl

/-- C9: for every opcode value and every prior signal state, after
`ControlUnit(opcode)` one of MemRead, MemWrite is 0 and one of Branch, Jump
is 0. -/
theorem ControlUnit_exclusive (s : State) (opcode : Nat) :
    ((ControlUnit s opcode).MemRead = 0 ∨ (ControlUnit s opcode).MemWrite = 0) ∧
    ((ControlUnit s opcode).Branch = 0 ∨ (ControlUnit s opcode).Jump = 0) := by
  unfold ControlUnit
  simp only []
  split_ifs <;> simp

/-- C10: `ALUControl` for every input. ALUOp = 00 gives ADD (0b0010);
ALUOp0 = 1, ALUOp1 = 0 gives SUB (0b0110) whatever funct3 and funct7;
ALUOp1 = 1, ALUOp0 = 0 gives SUB iff funct3 = 0, funct7 = 0x20 and ALUSrc = 0,
ADD for funct3 = 0 otherwise, AND (0b0000) for funct3 = 7, OR (0b0001) for
funct3 = 6 and ADD for any other funct3; every other ALUOp gives ADD. -/
theorem ALUControl_resolution (ALUSrc ALUOp0 ALUOp1 : Int) (funct3 funct7 : Nat) :
    (ALUOp0 = 0 ∧ ALUOp1 = 0 → ALUControl ALUSrc ALUOp0 ALUOp1 funct3 funct7 = 0b0010) ∧
    (ALUOp0 = 1 ∧ ALUOp1 = 0 → ALUControl ALUSrc ALUOp0 ALUOp1 funct3 funct7 = 0b0110) ∧
    (ALUOp1 = 1 ∧ ALUOp0 = 0 →
      (ALUControl ALUSrc ALUOp0 ALUOp1 funct3 funct7 = 0b0110 ↔
        funct3 = 0 ∧ funct7 = 0x20 ∧ ALUSrc = 0) ∧
      (funct3 = 0 → ¬ (funct7 = 0x20 ∧ ALUSrc = 0) →
        ALUControl ALUSrc ALUOp0 ALUOp1 funct3 funct7 = 0b0010) ∧
      (funct3 = 7 → ALUControl ALUSrc ALUOp0 ALUOp1 funct3 funct7 = 0b0000) ∧
      (funct3 = 6 → ALUControl ALUSrc ALUOp0 ALUOp1 funct3 funct7 = 0b0001) ∧
      (funct3 ≠ 0 → funct3 ≠ 7 → funct3 ≠ 6 →
        ALUControl ALUSrc ALUOp0 ALUOp1 funct3 funct7 = 0b0010)) ∧
    (¬ (ALUOp0 = 0 ∧ ALUOp1 = 0) → ¬ (ALUOp0 = 1 ∧ ALUOp1 = 0) → ¬ (ALUOp1 = 1 ∧ ALUOp0 = 0) →
      ALUControl ALUSrc ALUOp0 ALUOp1 funct3 funct7 = 0b0010) := by
  unfold ALUControl
  refine ⟨?_, ?_, ?_, ?_⟩
  · rintro ⟨h0, h1⟩; simp [h0, h1]
  · rintro ⟨h0, h1⟩; simp [h0, h1]
  · rintro ⟨h1, h0⟩
    subst h1 h0
    simp only [true_and, and_self, one_ne_zero, and_false, false_and, zero_ne_one, if_false,
      if_true]
    refine ⟨?_, ?_, ?_, ?_, ?_⟩
    · split_ifs <;> simp_all
    · intro h3 h7; simp [h3, h7]
    · intro h3; simp [h3]
    · intro h3; simp [h3]
    · intro a b c; simp [a, b, c]
  · intro a b c
    have c' : ¬ (ALUOp0 = 0 ∧ ALUOp1 = 1) := fun h => c ⟨h.2, h.1⟩
    simp [a, b, c']

/-! ## Immediates (C11 to C15) -/

/-- C11: for every instruction word `w` with opcode 0x63 the immediate of
`Decode` is the 13-bit two's-complement value of
bit31 ‖ bit7 ‖ bits30:25 ‖ bits11:8 ‖ 0, that is
`-4096*b31 + 2048*b7 + 32*bits[30:25] + 2*bits[11:8]`. -/
theorem branch_immediate (s : State) (w : Nat) (hop : opcodeOf w = 0x63) :
    (Decode s w).2.imm =
      -4096 * ((w / 2 ^ 31 % 2 : Nat) : Int) + 2048 * ((w / 2 ^ 7 % 2 : Nat) : Int)
        + 32 * ((w / 2 ^ 25 % 64 : Nat) : Int) + 2 * ((w / 2 ^ 8 % 16 : Nat) : Int) ∧
    (Decode s w).2.imm =
      specTwosComplement 13
        (4096 * (w / 2 ^ 31 % 2) + 2048 * (w / 2 ^ 7 % 2) + 32 * (w / 2 ^ 25 % 64)
          + 2 * (w / 2 ^ 8 % 16)) := by
  unfold opcodeOf at hop
  rw [Decode_snd]
  simp only []
  rw [hop, decodeImm_b]
  refine ⟨rfl, ?_⟩
  unfold specTwosComplement
  split_ifs with h
  · have h' : 4096 * (w / 2 ^ 31 % 2) + 2048 * (w / 2 ^ 7 % 2) + 32 * (w / 2 ^ 25 % 64)
        + 2 * (w / 2 ^ 8 % 16) < 4096 := h
    omega
  · have h' : ¬ (4096 * (w / 2 ^ 31 % 2) + 2048 * (w / 2 ^ 7 % 2) + 32 * (w / 2 ^ 25 % 64)
        + 2 * (w / 2 ^ 8 % 16) < 4096) := h
    have e : ((2 : Int) ^ 13) = 8192 := by norm_num
    rw [e]
    omega

/-- C11, witness: `beq x0, x0, -4` (word 0xFE000EE3) decodes to -4. -/
theorem branch_immediate_witness :
    opcodeOf 0xFE000EE3 = 0x63 ∧
    (Decode (mkState [0xFE000EE3] rfPart1 dmemPart1) 0xFE000EE3).2.imm = -4 :=
  ⟨by decide,
   (branch_immediate (mkState [0xFE000EE3] rfPart1 dmemPart1) 0xFE000EE3 (by decide)).1.trans
     (by decide)⟩

/-- C12: for every instruction word `w` with opcode 0x6F the immediate of
`Decode` is the 21-bit two's-complement value of
bit31 ‖ bits19:12 ‖ bit20 ‖ bits30:21 ‖ 0, that is
`-2^20*b31 + 4096*bits[19:12] + 2048*b20 + 2*bits[30:21]`. -/
theorem jump_immediate (s : State) (w : Nat) (hop : opcodeOf w = 0x6F) :
    (Decode s w).2.imm =
      -1048576 * ((w / 2 ^ 31 % 2 : Nat) : Int) + 4096 * ((w / 2 ^ 12 % 256 : Nat) : Int)
        + 2048 * ((w / 2 ^ 20 % 2 : Nat) : Int) + 2 * ((w / 2 ^ 21 % 1024 : Nat) : Int) ∧
    (Decode s w).2.imm =
      specTwosComplement 21
        (1048576 * (w / 2 ^ 31 % 2) + 4096 * (w / 2 ^ 12 % 256) + 2048 * (w / 2 ^ 20 % 2)
          + 2 * (w / 2 ^ 21 % 1024)) := by
  unfold opcodeOf at hop
  rw [Decode_snd]
  simp only []
  rw [hop, decodeImm_j]
  refine ⟨rfl, ?_⟩
  unfold specTwosComplement
  split_ifs with h
  · have h' : 1048576 * (w / 2 ^ 31 % 2) + 4096 * (w / 2 ^ 12 % 256) + 2048 * (w / 2 ^ 20 % 2)
        + 2 * (w / 2 ^ 21 % 1024) < 1048576 := h
    omega
  · have h' : ¬ (1048576 * (w / 2 ^ 31 % 2) + 4096 * (w / 2 ^ 12 % 256)
        + 2048 * (w / 2 ^ 20 % 2) + 2 * (w / 2 ^ 21 % 1024) < 1048576) := h
    have e : ((2 : Int) ^ 21) = 2097152 := by norm_num
    rw [e]
    omega

/-- C12, witness: `jal x1, -8` (word 0xFF9FF0EF) decodes to -8. -/
theorem jump_immediate_witness :
    opcodeOf 0xFF9FF0EF = 0x6F ∧
    (Decode (mkState [0xFF9FF0EF] rfPart1 dmemPart1) 0xFF9FF0EF).2.imm = -8 :=
  ⟨by decide,
   (jump_immediate (mkState [0xFF9FF0EF] rfPart1 dmemPart1) 0xFF9FF0EF (by decide)).1.trans
     (by decide)⟩

/-- C13: for opcode 0x13, 0x03 or 0x67 the immediate of `Decode` is the 12-bit
two's-complement value of bits[31:20]; for opcode 0x23 it is the 12-bit
two's-complement value of bits[31:25] ‖ bits[11:7]; for every other opcode
except 0x63 and 0x6F (R-type 0x33 and every unsupported opcode) it is 0. -/
theorem i_s_immediate (s : State) (w : Nat) :
    (opcodeOf w = 0x13 ∨ opcodeOf w = 0x03 ∨ opcodeOf w = 0x67 →
      (Decode s w).2.imm = specTwosComplement 12 (w / 2 ^ 20 % 2 ^ 12)) ∧
    (opcodeOf w = 0x23 →
      (Decode s w).2.imm =
        specTwosComplement 12 (2 ^ 5 * (w / 2 ^ 25 % 2 ^ 7) + w / 2 ^ 7 % 2 ^ 5)) ∧
    (opcodeOf w ≠ 0x13 ∧ opcodeOf w ≠ 0x03 ∧ opcodeOf w ≠ 0x67 ∧ opcodeOf w ≠ 0x23 ∧
        opcodeOf w ≠ 0x63 ∧ opcodeOf w ≠ 0x6F →
      (Decode s w).2.imm = 0) := by
  rw [Decode_snd]
  simp only []
  unfold opcodeOf
  refine ⟨?_, ?_, ?_⟩
  · intro h
    rw [decodeImm_i _ _ h]
    rfl
  · intro h
    rw [h, decodeImm_s]
    rfl
  · intro h
    exact decodeImm_other _ _ h

/-- C14: for every instruction word with opcode 0x63 or 0x6F the immediate of
`Decode` is even, whether the offset is positive or negative. -/
theorem branch_jump_immediate_even (s : State) (w : Nat)
    (hop : opcodeOf w = 0x63 ∨ opcodeOf w = 0x6F) :
    (Decode s w).2.imm % 2 = 0 := by
  unfold opcodeOf at hop
  rw [Decode_snd]
  simp only []
  rcases hop with h | h
  · rw [h, decodeImm_b]; omega
  · rw [h, decodeImm_j]; omega

/-- C14, witness: the negative branch offset -4 and the positive one 8. -/
theorem branch_jump_immediate_even_witness :
    (Decode (mkState [] rfPart1 dmemPart1) 0xFE000EE3).2.imm = -4 ∧
    (Decode (mkState [] rfPart1 dmemPart1) 0xFE000EE3).2.imm % 2 = 0 ∧
    (Decode (mkState [] rfPart1 dmemPart1) 0x00210463).2.imm = 8 ∧
    (Decode (mkState [] rfPart1 dmemPart1) 0x00210463).2.imm % 2 = 0 :=
  ⟨by decide,
   branch_jump_immediate_even (mkState [] rfPart1 dmemPart1) 0xFE000EE3 (Or.inl (by decide)),
   by decide,
   branch_jump_immediate_even (mkState [] rfPart1 dmemPart1) 0x00210463 (Or.inl (by decide))⟩

/-- C15: for every `v` below `2^12`: with bit 11 set, `sign_extend(v, 12)` is
negative and equals `v - 4096`; with bit 11 clear it equals `v`. -/
theorem sign_extend_twelve (v : Nat) (hv : v < 2 ^ 12) :
    (v / 2 ^ 11 % 2 = 1 → sign_extend v 12 < 0 ∧ sign_extend v 12 = (v : Int) - 4096) ∧
    (v / 2 ^ 11 % 2 = 0 → sign_extend v 12 = (v : Int)) := by
  have hv' : v < 4096 := hv
  rw [sign_extend_12 v hv']
  constructor
  · intro h
    have h2 : ¬ v < 2048 := by omega
    rw [if_neg h2]
    omega
  · intro h
    have h2 : v < 2048 := by omega
    rw [if_pos h2]

/-- C15, witness: 0xFFF extends to -1 and 0x7FF to 2047. -/
theorem sign_extend_twelve_witness :
    sign_extend 0xFFF 12 = -1 ∧ sign_extend 0x7FF 12 = 2047 :=
  ⟨((sign_extend_twelve 0xFFF (by decide)).1 (by decide)).2.trans (by decide),
   (sign_extend_twelve 0x7FF (by decide)).2 (by decide)⟩

/-! ## Program counter, write-back and the run loop (C16 to C19) -/

/-- C16, counterexample: from pc = 0, with the part 2 seeds (x11 = 0x2), the
one-instruction program `jalr x1, x11, 0` completes its cycle with pc = 2,
which is not a multiple of 4. -/
theorem jalr_leaves_pc_misaligned :
    (mkState [0x000580E7] rfPart2 dmemPart2).pc = 0 ∧
    fetchable (mkState [0x000580E7] rfPart2 dmemPart2) ∧
    opcodeOf (currentInstr (mkState [0x000580E7] rfPart2 dmemPart2)) = 0x67 ∧
    (cycles 1 (mkState [0x000580E7] rfPart2 dmemPart2)).pc = 2 ∧
    (cycles 1 (mkState [0x000580E7] rfPart2 dmemPart2)).total_clock_cycles = 1 ∧
    (cycles 1 (mkState [0x000580E7] rfPart2 dmemPart2)).pc % 4 ≠ 0 := by
  decide

/-- C16, amended: starting from pc = 0, for every program and every initial
register and memory state, pc is a multiple of 2 after every cycle (also after
a taken branch, a JAL and a JALR); and a cycle of an instruction that is not a
branch, JAL or JALR takes a pc that is a multiple of 4 to a multiple of 4. -/
theorem pc_alignment (s : State) (hpc : s.pc = 0) :
    (∀ n, (cycles n s).pc % 2 = 0) ∧
    (∀ n, (cycles n s).pc % 4 = 0 → fetchable (cycles n s) →
      opcodeOf (currentInstr (cycles n s)) ≠ 0x63 →
      opcodeOf (currentInstr (cycles n s)) ≠ 0x6F →
      opcodeOf (currentInstr (cycles n s)) ≠ 0x67 →
      (cycles (n + 1) s).pc % 4 = 0) := by
  constructor
  · exact cycles_pc_even s (by rw [hpc])
  · intro n h4 hf h63 h6F h67
    show (cycle (cycles n s)).pc % 4 = 0
    rw [cycle_pc_sequential _ hf h63 h6F h67]
    omega

/-- C16, witness: the program `jalr x1, x11, 0` from pc = 0 has an even pc
after its cycle, and `sw x2, 0(x1)` leaves pc = 4. -/
theorem pc_alignment_witness :
    (cycles 1 (mkState [0x000580E7] rfPart2 dmemPart2)).pc % 2 = 0 ∧
    (cycles (0 + 1) (mkState [0x0020A023, 0x0000A183] rfPart1 dmemPart1)).pc % 4 = 0 :=
  ⟨(pc_alignment (mkState [0x000580E7] rfPart2 dmemPart2) rfl).1 1,
   (pc_alignment (mkState [0x0020A023, 0x0000A183] rfPart1 dmemPart1) rfl).2 0
     (by decide) (by decide) (by decide) (by decide) (by decide)⟩

/-- C17: the value `Writeback` considers for `rd` is `next_pc` (converted to
`int`; `Fetch` set it to `pc + 4`) if Jump is set, else the word `Mem`
returned if MemtoReg is set, else `alu_result`; `rf[rd]` becomes that value
when RegWrite is set and `rd ≠ 0`, the register file is unchanged otherwise,
and every register other than `rd` is unchanged in any case. -/
theorem writeback_value_selection (s : State) (rd : Nat) (alu_result mem_data : Int) :
    (s.RegWrite ≠ 0 ∧ rd ≠ 0 →
      (Writeback s rd alu_result mem_data).rf rd =
        (if s.Jump ≠ 0 then toS32 (s.next_pc : Int)
         else if s.MemtoReg ≠ 0 then mem_data else alu_result)) ∧
    (¬ (s.RegWrite ≠ 0 ∧ rd ≠ 0) → (Writeback s rd alu_result mem_data).rf = s.rf) ∧
    (∀ i, i ≠ rd → (Writeback s rd alu_result mem_data).rf i = s.rf i) ∧
    (s.next_pc < 2147483648 → toS32 (s.next_pc : Int) = (s.next_pc : Int)) ∧
    (∀ t : State, fetchable t → (Fetch t).1.next_pc = (t.pc + 4) % 4294967296) := by
  rw [Writeback_eq]
  simp only []
  refine ⟨?_, ?_, ?_, ?_, ?_⟩
  · intro h
    rw [if_pos h, setAt_same]
  · intro h
    rw [if_neg h]
  · intro i hi
    by_cases h : s.RegWrite ≠ 0 ∧ rd ≠ 0
    · rw [if_pos h]
      exact setAt_ne _ _ _ _ hi
    · rw [if_neg h]
  · intro h
    unfold toS32; omega
  · intro t ht
    unfold fetchable at ht
    have h : ¬ (t.pc / 4 ≥ toU32 t.instr_count) := by omega
    unfold Fetch
    rw [if_neg h]

/-- C18: after `Writeback` pc is the jump target if Jump is set, else the
branch target if Branch is set and the branch was taken (`alu_zero` set), else
`next_pc`; the cycle counter is exactly one greater than before (the increment
not overflowing). Every R-type, I-arithmetic, load and store instruction
advances pc by exactly 4 and the counter by 1. -/
theorem next_pc_selection (s : State) (rd : Nat) (alu_result mem_data : Int)
    (hcc : IsInt32 (s.total_clock_cycles + 1)) :
    (Writeback s rd alu_result mem_data).pc =
      (if s.Jump ≠ 0 then s.jump_target
       else if s.Branch ≠ 0 ∧ s.alu_zero ≠ 0 then s.branch_target
       else s.next_pc) ∧
    (Writeback s rd alu_result mem_data).total_clock_cycles = s.total_clock_cycles + 1 ∧
    (∀ t : State, fetchable t → t.pc + 4 < 4294967296 →
      IsInt32 (t.total_clock_cycles + 1) →
      (opcodeOf (currentInstr t) = 0x33 ∨ opcodeOf (currentInstr t) = 0x13 ∨
        opcodeOf (currentInstr t) = 0x03 ∨ opcodeOf (currentInstr t) = 0x23) →
      (Fetch t).1.next_pc = t.pc + 4 ∧ (cycle t).pc = t.pc + 4 ∧
      (cycle t).total_clock_cycles = t.total_clock_cycles + 1) := by
  refine ⟨by rw [Writeback_eq], ?_, ?_⟩
  · rw [Writeback_eq]
    exact toS32_of_IsInt32 _ hcc
  intro t hf hpc hc hop
  refine ⟨?_, ?_, ?_⟩
  · have h : ¬ (t.pc / 4 ≥ toU32 t.instr_count) := by unfold fetchable at hf; omega
    unfold Fetch
    rw [if_neg h]
    show (t.pc + 4) % 4294967296 = t.pc + 4
    omega
  · rw [cycle_pc_sequential t hf (by rcases hop with h | h | h | h <;> rw [h] <;> decide)
      (by rcases hop with h | h | h | h <;> rw [h] <;> decide)
      (by rcases hop with h | h | h | h <;> rw [h] <;> decide)]
    omega
  · rw [cycle_total_clock_cycles t hf]
    exact toS32_of_IsInt32 _ hc

/-- C18, witness: `Writeback` on the initial part 1 state with jump target 0
and `next_pc` 4 selects pc = 4 and counts one cycle; `sw x2, 0(x1)` moves pc
from 0 to 4. -/
theorem next_pc_selection_witness :
    (Writeback { mkState [0x0020A023] rfPart1 dmemPart1 with next_pc := 4 } 0 0 0).pc = 4 ∧
    (Writeback { mkState [0x0020A023] rfPart1 dmemPart1 with next_pc := 4 } 0 0 0).total_clock_cycles
      = 0 + 1 ∧
    (cycle (mkState [0x0020A023] rfPart1 dmemPart1)).pc = 0 + 4 :=
  ⟨(next_pc_selection { mkState [0x0020A023] rfPart1 dmemPart1 with next_pc := 4 } 0 0 0
      (by decide)).1,
   (next_pc_selection { mkState [0x0020A023] rfPart1 dmemPart1 with next_pc := 4 } 0 0 0
      (by decide)).2.1,
   ((next_pc_selection { mkState [0x0020A023] rfPart1 dmemPart1 with next_pc := 4 } 0 0 0
      (by decide)).2.2 (mkState [0x0020A023] rfPart1 dmemPart1) (by decide) (by decide)
      (by decide) (Or.inr (Or.inr (Or.inr (by decide))))).2.1⟩

/-- C19: for every program with `1 ≤ instr_count` (at most the 100 words of
`instr_mem`) and every initial state with cycle counter 0 (whatever pc is, so
for pc = 0), the loop of `main` exits, with any fuel of at least
`5 * instr_count + 1` iterations; on exit at most `5 * instr_count + 1` cycles
were completed, and when the safeguard is not what stopped it, `pc / 4` is at
least `instr_count`. -/
theorem run_loop_terminates (s : State) (fuel : Nat)
    (hn : 1 ≤ s.instr_count) (hcap : s.instr_count ≤ 100)
    (hc : s.total_clock_cycles = 0) (hfuel : 5 * s.instr_count.toNat + 1 ≤ fuel) :
    ∃ s', mainLoop fuel s = some s' ∧
      s'.total_clock_cycles ≤ 5 * s.instr_count + 1 ∧
      (safeguard s' = false → s.instr_count ≤ ((s'.pc / 4 : Nat) : Int)) := by
  obtain ⟨s', h1, h2, -, h4, h5⟩ :=
    mainLoop_exits s.instr_count hn hcap (5 * s.instr_count.toNat) fuel s rfl
      (by rw [hc]; omega) (by rw [hc]) hfuel
  refine ⟨s', h1, h4, ?_⟩
  intro hs
  have h6 := h5 hs
  unfold fetchable toU32 at h6
  rw [h2] at h6
  omega

/-- C19, witness: the one-instruction program `jal x0, 0` jumps to itself for
ever; the loop exits through the safeguard after `5 * 1 + 1 = 6` cycles. -/
theorem run_loop_terminates_witness :
    Option.map State.total_clock_cycles (mainLoop 6 (mkState [0x0000006F] rfPart1 dmemPart1))
      = some 6 ∧
    Option.map State.pc (mainLoop 6 (mkState [0x0000006F] rfPart1 dmemPart1)) = some 0 ∧
    (mainLoop 5 (mkState [0x0000006F] rfPart1 dmemPart1)).isNone = true ∧
    ∃ s', mainLoop 6 (mkState [0x0000006F] rfPart1 dmemPart1) = some s' ∧
      s'.total_clock_cycles ≤ 5 * (mkState [0x0000006F] rfPart1 dmemPart1).instr_count + 1 ∧
      (safeguard s' = false →
        (mkState [0x0000006F] rfPart1 dmemPart1).instr_count ≤ ((s'.pc / 4 : Nat) : Int)) :=
  ⟨by decide, by decide, by decide,
   run_loop_terminates (mkState [0x0000006F] rfPart1 dmemPart1) 6 (by decide) (by decide)
     (by decide) (by decide)⟩

/-! ## Field extraction (C20) -/

/-- C20: for every word and every `start`, `length` (so for `start < 32`,
`length ≤ 32`, `start + length ≤ 32`), `extract_bits(word, start, length)` is
`floor(word / 2^start) mod 2^length`, hence below `2^length`; and the `rd`,
`rs1`, `rs2` fields `Decode` produces are below 32. -/
theorem extract_bits_field (w start length : Nat) :
    extract_bits w start length = w / 2 ^ start % 2 ^ length ∧
    extract_bits w start length < 2 ^ length ∧
    ∀ s : State, (Decode s w).2.rd < 32 ∧ (Decode s w).2.rs1 < 32 ∧ (Decode s w).2.rs2 < 32 := by
  have hm : ∀ x : Nat, x &&& 0x1F = x % 2 ^ 5 := fun x => Nat.and_pow_two_sub_one_eq_mod x 5
  refine ⟨extract_bits_eq w start length, ?_, ?_⟩
  · rw [extract_bits_eq]
    exact Nat.mod_lt _ (Nat.two_pow_pos length)
  · intro s
    rw [Decode_snd]
    simp only []
    rw [hm, hm, hm]
    omega

/-! ## Memory stage (C21) -/

/-- C21: for every `alu_result` (negative ones too, `%` and `/` truncating),
every `rs2` value and every control-signal state, `Mem` touches `d_mem` only
when MemRead or MemWrite is set, `alu_result % 4 = 0` and
`0 ≤ alu_result / 4 < 32`, and then only at index `alu_result / 4`: no other
word changes, the value returned is the word at that index when MemRead is
set and 0 otherwise, a store writes `rs2_val` there and a load changes no
word. In every other case the whole state, so all of `d_mem`, is unchanged and
`Mem` returns 0. Nothing but `d_mem` is ever changed. -/
theorem mem_access_safety (s : State) (alu_result rs2_val : Int) :
    ((s.MemRead = 0 ∧ s.MemWrite = 0) ∨ Int.tmod alu_result 4 ≠ 0 ∨
        Int.tdiv alu_result 4 < 0 ∨ 32 ≤ Int.tdiv alu_result 4 →
      (Mem s alu_result rs2_val).1 = s ∧ (Mem s alu_result rs2_val).2 = 0) ∧
    ((s.MemRead ≠ 0 ∨ s.MemWrite ≠ 0) → Int.tmod alu_result 4 = 0 →
        0 ≤ Int.tdiv alu_result 4 → Int.tdiv alu_result 4 < 32 →
      (Int.tdiv alu_result 4).toNat < 32 ∧
      (∀ i, i ≠ (Int.tdiv alu_result 4).toNat →
        (Mem s alu_result rs2_val).1.d_mem i = s.d_mem i) ∧
      (s.MemWrite ≠ 0 →
        (Mem s alu_result rs2_val).1.d_mem (Int.tdiv alu_result 4).toNat = rs2_val) ∧
      (s.MemWrite = 0 → (Mem s alu_result rs2_val).1.d_mem = s.d_mem) ∧
      (Mem s alu_result rs2_val).2 =
        (if s.MemRead ≠ 0 then s.d_mem (Int.tdiv alu_result 4).toNat else 0)) ∧
    (Mem s alu_result rs2_val).1 =
      { s with d_mem := (Mem s alu_result rs2_val).1.d_mem } := by
  rw [Mem_eq]
  simp only []
  refine ⟨?_, ?_, ?_⟩
  · intro h
    have hc : ¬ (s.MemWrite ≠ 0 ∧ ¬ memFault alu_result) := by
      unfold memFault
      rintro ⟨h1, h2⟩
      rcases h with h | h | h | h
      · exact h1 h.2
      · exact h2 (Or.inl h)
      · exact h2 (Or.inr (Or.inl h))
      · exact h2 (Or.inr (Or.inr h))
    have hr : ¬ (s.MemRead ≠ 0 ∧ ¬ memFault alu_result) := by
      unfold memFault
      rintro ⟨h1, h2⟩
      rcases h with h | h | h | h
      · exact h1 h.1
      · exact h2 (Or.inl h)
      · exact h2 (Or.inr (Or.inl h))
      · exact h2 (Or.inr (Or.inr h))
    rw [if_neg hc, if_neg hr]
    exact ⟨rfl, rfl⟩
  · intro hsig h4 hlo hhi
    have hnf : ¬ memFault alu_result := by
      unfold memFault
      rintro (h | h | h)
      · exact h h4
      · omega
      · omega
    refine ⟨by omega, ?_, ?_, ?_, ?_⟩
    · intro i hi
      split_ifs
      · exact setAt_ne _ _ _ _ hi
      · rfl
    · intro hw
      rw [if_pos ⟨hw, hnf⟩, setAt_same]
    · intro hw
      rw [if_neg (fun h => h.1 hw)]
    · by_cases hr : s.MemRead ≠ 0
      · rw [if_pos ⟨hr, hnf⟩, if_pos hr]
      · rw [if_neg (fun h => hr h.1), if_neg hr]
  · trivial

/-! ## Control and scratch globals (C22) -/

/-- C22: two states that agree on pc, the register file, the data memory, the
instruction memory and the cycle counter, and from both of which an
instruction is fetched (`pc / 4 < instr_count`), give after one cycle the
same pc, register file, data memory and cycle counter, however they differ in
the nine control signals, `alu_zero`, `next_pc`, `branch_target` and
`jump_target`. -/
theorem no_state_retained (s t : State)
    (hpc : s.pc = t.pc) (hrf : s.rf = t.rf) (hdm : s.d_mem = t.d_mem)
    (him : s.instr_mem = t.instr_mem)
    (hcc : s.total_clock_cycles = t.total_clock_cycles)
    (hfs : fetchable s) (hft : fetchable t) :
    (cycle s).pc = (cycle t).pc ∧ (cycle s).rf = (cycle t).rf ∧
    (cycle s).d_mem = (cycle t).d_mem ∧
    (cycle s).total_clock_cycles = (cycle t).total_clock_cycles := by
  have hci := currentInstr_congr s t hpc him
  have hd := decoded_congr s t hpc hrf him
  have hma := memAddress_congr s t hpc hrf him
  have hcount : (cycle s).total_clock_cycles = (cycle t).total_clock_cycles := by
    rw [cycle_total_clock_cycles s hfs, cycle_total_clock_cycles t hft, hcc]
  by_cases h33 : opcodeOf (currentInstr s) = 0x33
  · obtain ⟨a1, b1, c1⟩ := cycle_rtype s hfs h33
    obtain ⟨a2, b2, c2⟩ := cycle_rtype t hft (hci ▸ h33)
    refine ⟨?_, ?_, ?_, hcount⟩
    · rw [c1, c2, hpc]
    · rw [b1, b2, hd, hrf]
    · rw [a1, a2, hdm]
  by_cases h13 : opcodeOf (currentInstr s) = 0x13
  · obtain ⟨a1, b1, c1⟩ := cycle_iarith s hfs h13
    obtain ⟨a2, b2, c2⟩ := cycle_iarith t hft (hci ▸ h13)
    refine ⟨?_, ?_, ?_, hcount⟩
    · rw [c1, c2, hpc]
    · rw [b1, b2, hd, hrf]
    · rw [a1, a2, hdm]
  by_cases h03 : opcodeOf (currentInstr s) = 0x03
  · obtain ⟨a1, b1, c1, -⟩ := cycle_load s hfs h03
    obtain ⟨a2, b2, c2, -⟩ := cycle_load t hft (hci ▸ h03)
    refine ⟨?_, ?_, ?_, hcount⟩
    · rw [c1, c2, hpc]
    · rw [b1, b2, hd, hrf, hma, hdm]
    · rw [a1, a2, hdm]
  by_cases h23 : opcodeOf (currentInstr s) = 0x23
  · obtain ⟨a1, b1, c1, -⟩ := cycle_store s hfs h23
    obtain ⟨a2, b2, c2, -⟩ := cycle_store t hft (hci ▸ h23)
    refine ⟨?_, ?_, ?_, hcount⟩
    · rw [c1, c2, hpc]
    · rw [b1, b2, hrf]
    · rw [a1, a2, hd, hma, hdm]
  by_cases h63 : opcodeOf (currentInstr s) = 0x63
  · obtain ⟨a1, b1, -, c1, -⟩ := cycle_branch s hfs h63
    obtain ⟨a2, b2, -, c2, -⟩ := cycle_branch t hft (hci ▸ h63)
    refine ⟨?_, ?_, ?_, hcount⟩
    · rw [c1, c2, hd, hpc]
    · rw [b1, b2, hrf]
    · rw [a1, a2, hdm]
  by_cases h6F : opcodeOf (currentInstr s) = 0x6F
  · obtain ⟨a1, b1, c1, -⟩ := cycle_jal s hfs h6F
    obtain ⟨a2, b2, c2, -⟩ := cycle_jal t hft (hci ▸ h6F)
    refine ⟨?_, ?_, ?_, hcount⟩
    · rw [c1, c2, hd, hpc]
    · rw [b1, b2, hd, hrf, hpc]
    · rw [a1, a2, hdm]
  by_cases h67 : opcodeOf (currentInstr s) = 0x67
  · obtain ⟨a1, b1, c1, -⟩ := cycle_jalr s hfs h67
    obtain ⟨a2, b2, c2, -⟩ := cycle_jalr t hft (hci ▸ h67)
    refine ⟨?_, ?_, ?_, hcount⟩
    · rw [c1, c2, hd]
    · rw [b1, b2, hd, hrf, hpc]
    · rw [a1, a2, hdm]
  have hun : ¬ supportedOpcode (opcodeOf (currentInstr s)) := by
    unfold supportedOpcode
    simp only [not_or]
    exact ⟨h33, h13, h03, h23, h63, h6F, h67⟩
  obtain ⟨a1, b1, c1, -⟩ := cycle_unsupported s hfs hun
  obtain ⟨a2, b2, c2, -⟩ := cycle_unsupported t hft (hci ▸ hun)
  refine ⟨?_, ?_, ?_, hcount⟩
  · rw [c1, c2, hpc]
  · rw [b1, b2, hrf]
  · rw [a1, a2, hdm]

/-- C22, witness: the part 2 state about to run `jalr x1, x10, 0`, and the same
state with all control and scratch globals overwritten, reach the same pc,
register file, data memory and cycle counter (pc = 4, x1 = 4). -/
theorem no_state_retained_witness :
    (scrambleGlobals (mkState [0x000500E7] rfPart2 dmemPart2)).Jump
      ≠ (mkState [0x000500E7] rfPart2 dmemPart2).Jump ∧
    (scrambleGlobals (mkState [0x000500E7] rfPart2 dmemPart2)).jump_target
      ≠ (mkState [0x000500E7] rfPart2 dmemPart2).jump_target ∧
    (cycle (scrambleGlobals (mkState [0x000500E7] rfPart2 dmemPart2))).pc = 4 ∧
    (cycle (scrambleGlobals (mkState [0x000500E7] rfPart2 dmemPart2))).rf 1 = 4 ∧
    (cycle (mkState [0x000500E7] rfPart2 dmemPart2)).pc
      = (cycle (scrambleGlobals (mkState [0x000500E7] rfPart2 dmemPart2))).pc ∧
    (cycle (mkState [0x000500E7] rfPart2 dmemPart2)).rf
      = (cycle (scrambleGlobals (mkState [0x000500E7] rfPart2 dmemPart2))).rf ∧
    (cycle (mkState [0x000500E7] rfPart2 dmemPart2)).d_mem
      = (cycle (scrambleGlobals (mkState [0x000500E7] rfPart2 dmemPart2))).d_mem ∧
    (cycle (mkState [0x000500E7] rfPart2 dmemPart2)).total_clock_cycles
      = (cycle (scrambleGlobals (mkState [0x000500E7] rfPart2 dmemPart2))).total_clock_cycles :=
  ⟨by decide, by decide, by decide, by decide,
   no_state_retained (mkState [0x000500E7] rfPart2 dmemPart2)
     (scrambleGlobals (mkState [0x000500E7] rfPart2 dmemPart2)) rfl rfl rfl rfl rfl
     (by decide) (by decide)⟩

/-! ## Immediate ranges (C23) -/

/-- C23: the immediate of `Decode` lies in [-2048, 2047] for opcodes 0x13,
0x03, 0x67 and 0x23, in [-4096, 4094] for 0x63 and in [-1048576, 1048574] for
0x6F; and every value of each range (even values for 0x63 and 0x6F) is the
immediate of some 32-bit instruction word of that opcode. -/
theorem immediate_ranges :
    (∀ (s : State) (w : Nat),
      opcodeOf w = 0x13 ∨ opcodeOf w = 0x03 ∨ opcodeOf w = 0x67 ∨ opcodeOf w = 0x23 →
      -2048 ≤ (Decode s w).2.imm ∧ (Decode s w).2.imm ≤ 2047) ∧
    (∀ (s : State) (w : Nat), opcodeOf w = 0x63 →
      -4096 ≤ (Decode s w).2.imm ∧ (Decode s w).2.imm ≤ 4094) ∧
    (∀ (s : State) (w : Nat), opcodeOf w = 0x6F →
      -1048576 ≤ (Decode s w).2.imm ∧ (Decode s w).2.imm ≤ 1048574) ∧
    (∀ (x : Int) (opcode : Nat), -2048 ≤ x → x ≤ 2047 →
      opcode = 0x13 ∨ opcode = 0x03 ∨ opcode = 0x67 ∨ opcode = 0x23 →
      ∃ w : Nat, w < 4294967296 ∧ opcodeOf w = opcode ∧
        ∀ s : State, (Decode s w).2.imm = x) ∧
    (∀ x : Int, -4096 ≤ x → x ≤ 4094 → x % 2 = 0 →
      ∃ w : Nat, w < 4294967296 ∧ opcodeOf w = 0x63 ∧
        ∀ s : State, (Decode s w).2.imm = x) ∧
    (∀ x : Int, -1048576 ≤ x → x ≤ 1048574 → x % 2 = 0 →
      ∃ w : Nat, w < 4294967296 ∧ opcodeOf w = 0x6F ∧
        ∀ s : State, (Decode s w).2.imm = x) := by
  refine ⟨?_, ?_, ?_, ?_, ?_, ?_⟩
  · intro s w hop
    rw [Decode_imm]
    rcases hop with h | h | h | h
    · rw [decodeImm_i _ _ (Or.inl h)]
      split_ifs <;> omega
    · rw [decodeImm_i _ _ (Or.inr (Or.inl h))]
      split_ifs <;> omega
    · rw [decodeImm_i _ _ (Or.inr (Or.inr h))]
      split_ifs <;> omega
    · rw [h, decodeImm_s]
      split_ifs <;> omega
  · intro s w hop
    rw [Decode_imm, hop, decodeImm_b]
    omega
  · intro s w hop
    rw [Decode_imm, hop, decodeImm_j]
    omega
  · intro x opcode hlo hhi hop
    rcases hop with h | h | h | h
    · obtain ⟨w, h1, h2, h3⟩ := encode_i x hlo hhi opcode (Or.inl h)
      exact ⟨w, h1, h2, fun s => by rw [Decode_imm, h2, h3]⟩
    · obtain ⟨w, h1, h2, h3⟩ := encode_i x hlo hhi opcode (Or.inr (Or.inl h))
      exact ⟨w, h1, h2, fun s => by rw [Decode_imm, h2, h3]⟩
    · obtain ⟨w, h1, h2, h3⟩ := encode_i x hlo hhi opcode (Or.inr (Or.inr h))
      exact ⟨w, h1, h2, fun s => by rw [Decode_imm, h2, h3]⟩
    · subst h
      obtain ⟨w, h1, h2, h3⟩ := encode_s x hlo hhi
      exact ⟨w, h1, h2, fun s => by rw [Decode_imm, h2, h3]⟩
  · intro x hlo hhi hev
    obtain ⟨w, h1, h2, h3⟩ := encode_b x hlo hhi hev
    exact ⟨w, h1, h2, fun s => by rw [Decode_imm, h2, h3]⟩
  · intro x hlo hhi hev
    obtain ⟨w, h1, h2, h3⟩ := encode_j x hlo hhi hev
    exact ⟨w, h1, h2, fun s => by rw [Decode_imm, h2, h3]⟩

end RiscV
